import Mathlib

/-!
Verification development for the live-dashboard account authorization and
session lifecycle orchestrator (`src/auth-manager.ts`, current revision with
logger integration) and the session validator (`src/cookie-manager.ts`).

The TypeScript orchestrator is shallowly embedded as a deterministic state
machine.  External collaborators (the session validator probes, the
interactive agent login, the impersonation workflow `traverseToAccount`'s
browser automation outcome, the metrics fetcher `fetchLiveRooms`, and the
SQLite record store) are modelled as oracle functions collected in `Env`;
this matches the spec's treatment of them as opaque boundary operations.

Concurrency model: the Electron main process is single-threaded; interleaving
happens only at `await` suspension points.  Operations are therefore modelled
as atomic state transformers, and the long-running `processAuthQueue` drain is
split at its suspension points into separate machine actions (`drainAgent`
resolves the shared agent credential, `drainStep` runs one per-account loop
iteration, `drainFinish` is the `finally` block), with the suspended async
function's local variables (`pendingIds`, the loop position) carried in the
state as `DrainLocal`.  The synchronous prefix of `processAuthQueue` (the
re-entrancy guard, batch snapshot and progress initialisation, which run
before its first `await`) is `processAuthQueueStart` and executes inside the
action that invokes it, exactly as in the source where `enqueueAuth` calls
`processAuthQueue()` without awaiting it.
-/

/-- `CookieStatus` in auth-manager.ts: `'valid' | 'invalid' | 'authorizing' | 'unknown'`. -/
inductive CookieStatus where
  | valid
  | invalid
  | authorizing
  | unknown
deriving DecidableEq, Repr

/-- `CookieData` from db.ts as used by the auth manager. -/
structure CookieData where
  name : String
  value : String
  domain : String
  path : String
  expires : Int
  httpOnly : Bool
  secure : Bool
  sameSite : Option String
deriving DecidableEq, Repr

/-- `LiveRoomData` from data-fetcher.ts; opaque to the orchestrator, which only
stores and returns whole snapshots. -/
structure LiveRoomData where
  roomId : String
deriving DecidableEq, Repr

/-- `AccountData` in auth-manager.ts. -/
structure AccountData where
  advId : String
  name : Option String
  liveRooms : List LiveRoomData
  endedRooms : List LiveRoomData
  lastFetchTime : Nat
  cookies : List CookieData
  cookieStatus : CookieStatus
deriving DecidableEq, Repr

/-- The `authProgress` record of `AuthManager`. -/
structure AuthProgress where
  isRunning : Bool
  current : Option String
  done : Nat
  total : Nat
deriving DecidableEq, Repr

/-- `authProgress` reset value `{ isRunning: false, current: null, done: 0, total: 0 }`. -/
def AuthProgress.idle : AuthProgress := ⟨false, none, 0, 0⟩

/-- Local state of the (possibly suspended) `processAuthQueue` coroutine:
`idle` = no drain active; `agentPhase pendingIds` = batch snapshotted, agent
credential being resolved; `looping remaining` = per-account loop with the
listed ids still unprocessed. -/
inductive DrainLocal where
  | idle
  | agentPhase (pendingIds : List String)
  | looping (remaining : List String)
deriving DecidableEq, Repr

/-- In-memory state of `AuthManager`: the `accounts` map (association list with
unique keys by construction), the `authQueue` set (duplicate-free list in
insertion order, as `Array.from(Set)` yields), the single-flight flag, the
progress record, and the drain coroutine's local state. -/
structure AuthState where
  accounts : List (String × AccountData)
  authQueue : List String
  isAuthRunning : Bool
  authProgress : AuthProgress
  drain : DrainLocal
deriving DecidableEq, Repr

/-- The empty manager produced by `new AuthManager()`. -/
def AuthState.init : AuthState :=
  { accounts := [], authQueue := [], isAuthRunning := false,
    authProgress := AuthProgress.idle, drain := DrainLocal.idle }

/-- `this.accounts.get(advId)`. -/
def findAcc (id : String) (m : List (String × AccountData)) : Option AccountData :=
  match m with
  | [] => none
  | p :: rest => if p.1 = id then some p.2 else findAcc id rest

/-- Apply `f` to the account stored under `id` (in-place mutation of the map
entry in the source). -/
def updAcc (id : String) (f : AccountData → AccountData)
    (m : List (String × AccountData)) : List (String × AccountData) :=
  m.map (fun p => if p.1 = id then (p.1, f p.2) else p)

/-- `account.cookieStatus = st` guarded by `if (account)` — a no-op when the
id is not registered. -/
def setStatus (id : String) (st : CookieStatus)
    (m : List (String × AccountData)) : List (String × AccountData) :=
  updAcc id (fun a => { a with cookieStatus := st }) m

/-- `this.authQueue.add(advId)` (Set semantics: no duplicate). -/
def queueAdd (id : String) (q : List String) : List String :=
  if id ∈ q then q else q ++ [id]

/-- `this.authQueue.delete(advId)` (Set semantics). -/
def queueErase (id : String) (q : List String) : List String :=
  q.filter (fun x => x ≠ id)

/-- Outcome of `traverseToAccount` as observed by the drain loop: a cookie
list (the current revision catches its own exceptions and returns `[]`), or a
raised exception (possible in the earlier revision; either way the loop's
per-account `catch` handles it). -/
inductive TraverseResult where
  | ok (cs : List CookieData)
  | throws
deriving DecidableEq, Repr

/-- Outcome of `fetchLiveRooms`: a result object, `null` (session rejected),
or a raised exception (transient error). -/
inductive FetchResult where
  | ok (live ended : List LiveRoomData)
  | nullResult
  | throws
deriving DecidableEq, Repr

/-- The `cookies` column of the stored agent record as the drain reads it:
absent row / null column, the literal string `'[]'` (both fail the
`agent?.cookies && agent.cookies !== '[]'` guard), a malformed JSON string
(`JSON.parse` throws, reaching the drain's outer `catch`), or a string
parsing to a cookie list. -/
inductive AgentCookiesField where
  | absent
  | emptyJson
  | malformed
  | parsed (cs : List CookieData)
deriving DecidableEq, Repr

/-- Oracles for the external collaborators, fixed for a run. -/
structure Env where
  validateAgent : List CookieData → Bool
  validateAccount : String → List CookieData → Bool
  loginOk : Bool
  traverse : String → TraverseResult
  fetch : String → List CookieData → FetchResult
  now : Nat
  agentCookies : AgentCookiesField
  agentStatus : String
  storedCookies : String → Option (List CookieData)
  dbDelete : String → Bool

/-- Observable calls to external collaborators, recorded as a trace. -/
inductive Ev where
  | validateAgentCalled (cs : List CookieData)
  | validateAccountCalled (id : String)
  | interactiveLogin
  | traverseCalled (id : String)
  | fetchCalled (id : String) (cs : List CookieData)
deriving DecidableEq, Repr

/-- Synchronous prefix of `processAuthQueue` (everything before its first
`await`): the single-flight guard `if (this.isAuthRunning || this.authQueue.size === 0) return`,
the flag set, the batch snapshot `pendingIds = Array.from(this.authQueue)` and
the progress initialisation. -/
def processAuthQueueStart (s : AuthState) : AuthState :=
  if s.isAuthRunning || s.authQueue.isEmpty then s
  else
    { s with isAuthRunning := true,
             authProgress := ⟨true, none, 0, s.authQueue.length⟩,
             drain := DrainLocal.agentPhase s.authQueue }

/-- `enqueueAuth(advId)`: idempotent queue add, status set to `authorizing`
when the id is registered, then an un-awaited `processAuthQueue()` call whose
synchronous prefix runs immediately. -/
def enqueueAuth (id : String) (s : AuthState) : AuthState :=
  if id ∈ s.authQueue then s
  else
    processAuthQueueStart
      { s with authQueue := s.authQueue ++ [id],
               accounts := setStatus id CookieStatus.authorizing s.accounts }

/-- Events emitted by `loadAgentCookiesToSession` (cookie-manager.ts): it
re-reads the stored agent record and, when the cookie string passes the
guards and parses to a non-empty list, re-validates it; its Bool result and
the Electron-session / store side effects are outside the model, and the
drain ignores the result anyway. -/
def loadAgentCookiesToSession (env : Env) : List Ev :=
  match env.agentCookies with
  | AgentCookiesField.parsed cs =>
      if cs.isEmpty then [] else [Ev.validateAgentCalled cs]
  | _ => []

/-- The fail-closed marking loop shared by the agent-login-timeout path and
the drain's outer catch: `for (const id of pendingIds) { authQueue.delete(id);
if (acc) acc.cookieStatus = 'invalid' }` (cookies untouched). -/
def failMark (pending : List String) (s : AuthState) : AuthState :=
  pending.foldl
    (fun acc id =>
      { acc with authQueue := queueErase id acc.authQueue,
                 accounts := setStatus id CookieStatus.invalid acc.accounts }) s

/-- Shared fail-closed path of the drain (agent-login timeout and the outer
catch): the marking loop followed by the `finally` block, which resets
progress, clears the single-flight flag and self-triggers. -/
def failDrain (pending : List String) (s : AuthState) : AuthState :=
  processAuthQueueStart
    { failMark pending s with isAuthRunning := false,
                              authProgress := AuthProgress.idle,
                              drain := DrainLocal.idle }

/-- Interactive-login fallback inside the drain's agent phase
(`waitForAgentLogin`); on timeout the batch fails closed. -/
def loginFallback (env : Env) (pending : List String) (s : AuthState)
    (ev0 : List Ev) : AuthState × List Ev :=
  if env.loginOk then
    ({ s with drain := DrainLocal.looping pending }, ev0 ++ [Ev.interactiveLogin])
  else
    (failDrain pending s, ev0 ++ [Ev.interactiveLogin])

/-- The drain's agent-resolution phase (step 2): the
`agent?.cookies && agent.cookies !== '[]'` guard, `validateAgentCookies` on
the parsed cookies, the headless reuse path via `loadAgentCookiesToSession`,
the interactive-login fallback, and the outer catch reached when `JSON.parse`
throws on a malformed stored cookie string. -/
def drainAgent (env : Env) (s : AuthState) : AuthState × List Ev :=
  match s.drain with
  | DrainLocal.agentPhase pending =>
      match env.agentCookies with
      | AgentCookiesField.malformed => (failDrain pending s, [])
      | AgentCookiesField.parsed cs =>
          if cs.isEmpty then loginFallback env pending s []
          else if env.validateAgent cs then
            ({ s with drain := DrainLocal.looping pending },
             Ev.validateAgentCalled cs :: loadAgentCookiesToSession env)
          else
            loginFallback env pending s [Ev.validateAgentCalled cs]
      | _ => loginFallback env pending s []
  | _ => (s, [])

/-- One iteration of the drain's per-account loop: progress `current` update,
`traverseToAccount`, the `cookies.length > 0 && account` branch with its
status/cookie/db updates and immediate `fetchLiveRooms`, the per-account
catch, then `authQueue.delete` and `done++` which run unconditionally. -/
def drainAccountStep (env : Env) (id : String) (s : AuthState) : AuthState × List Ev :=
  let s := { s with authProgress := { s.authProgress with current := some id } }
  let step : AuthState × List Ev :=
    match env.traverse id with
    | TraverseResult.throws =>
        ({ s with accounts := setStatus id CookieStatus.invalid s.accounts },
         [Ev.traverseCalled id])
    | TraverseResult.ok cs =>
        match findAcc id s.accounts with
        | some _ =>
            if cs.isEmpty then
              ({ s with accounts := setStatus id CookieStatus.invalid s.accounts },
               [Ev.traverseCalled id])
            else
              let s := { s with accounts := updAcc id (fun a => { a with cookies := cs, cookieStatus := CookieStatus.valid }) s.accounts }
              match env.fetch id cs with
              | FetchResult.ok live ended =>
                  ({ s with accounts := updAcc id (fun a =>
                      { a with liveRooms := live, endedRooms := ended,
                               lastFetchTime := env.now }) s.accounts },
                   [Ev.traverseCalled id, Ev.fetchCalled id cs])
              | FetchResult.nullResult =>
                  (s, [Ev.traverseCalled id, Ev.fetchCalled id cs])
              | FetchResult.throws =>
                  ({ s with accounts := setStatus id CookieStatus.invalid s.accounts },
                   [Ev.traverseCalled id, Ev.fetchCalled id cs])
        | none => (s, [Ev.traverseCalled id])
  ({ step.1 with authQueue := queueErase id step.1.authQueue,
                 authProgress := { step.1.authProgress with done := step.1.authProgress.done + 1 } },
   step.2)

/-- Machine action: run the next per-account loop iteration of a suspended
drain. -/
def drainStep (env : Env) (s : AuthState) : AuthState × List Ev :=
  match s.drain with
  | DrainLocal.looping (id :: rest) =>
      drainAccountStep env id { s with drain := DrainLocal.looping rest }
  | _ => (s, [])

/-- The drain's `finally` block once the batch is exhausted: progress reset,
single-flight flag cleared, immediate self-trigger when the queue gained new
entries during the drain. -/
def drainFinish (s : AuthState) : AuthState :=
  match s.drain with
  | DrainLocal.looping [] =>
      processAuthQueueStart
        { s with isAuthRunning := false, authProgress := AuthProgress.idle,
                 drain := DrainLocal.idle }
  | _ => s

/-- Big-step composition of the per-account loop over a batch. -/
def drainLoop (env : Env) : List String → AuthState → AuthState × List Ev
  | [], s => (s, [])
  | id :: rest, s =>
      let s1 := drainAccountStep env id s
      let s2 := drainLoop env rest s1.1
      (s2.1, s1.2 ++ s2.2)

/-- Big-step run of `processAuthQueue` from call to completion with no
interleaved operations: guard and snapshot, agent resolution, per-account
loop, `finally` block.  Built from the same per-phase functions as the
interleaved machine. -/
def processAuthQueueRun (env : Env) (s : AuthState) : AuthState × List Ev :=
  if s.isAuthRunning || s.authQueue.isEmpty then (s, [])
  else
    let s0 := processAuthQueueStart s
    let r1 := drainAgent env s0
    match r1.1.drain with
    | DrainLocal.looping pending =>
        let r2 := drainLoop env pending { r1.1 with drain := DrainLocal.looping [] }
        (drainFinish r2.1, r1.2 ++ r2.2)
    | _ => (r1.1, r1.2)

/-- `addAccount(advId, name)`: idempotent registration; reads the stored
record, validates stored cookies once (the `record.cookies !== '[]'` string
guard is the emptiness check on the parsed list, since the store writes
`JSON.stringify`), registers the account, then either enqueues for
authorization or performs one immediate metrics fetch whose exception (if
any) propagates to the IPC layer after registration. -/
def addAccount (env : Env) (id : String) (nm : Option String) (s : AuthState) :
    Except String AccountData × AuthState × List Ev :=
  match findAcc id s.accounts with
  | some a => (Except.ok a, s, [])
  | none =>
      let checked : List CookieData × CookieStatus × List Ev :=
        match env.storedCookies id with
        | some cs =>
            if cs.isEmpty then ([], CookieStatus.unknown, [])
            else if env.validateAccount id cs then
              (cs, CookieStatus.valid, [Ev.validateAccountCalled id])
            else
              ([], CookieStatus.invalid, [Ev.validateAccountCalled id])
        | none => ([], CookieStatus.unknown, [])
      let acct : AccountData :=
        { advId := id, name := nm, liveRooms := [], endedRooms := [],
          lastFetchTime := 0, cookies := checked.1, cookieStatus := checked.2.1 }
      let s1 : AuthState := { s with accounts := s.accounts ++ [(id, acct)] }
      if checked.2.1 ≠ CookieStatus.valid then
        (Except.ok acct, enqueueAuth id s1, checked.2.2)
      else
        match env.fetch id acct.cookies with
        | FetchResult.ok live ended =>
            let acct2 := { acct with
              liveRooms := live, endedRooms := ended, lastFetchTime := env.now }
            (Except.ok acct2,
             { s1 with accounts := updAcc id (fun _ => acct2) s1.accounts },
             checked.2.2 ++ [Ev.fetchCalled id acct.cookies])
        | FetchResult.nullResult =>
            (Except.ok acct, s1, checked.2.2 ++ [Ev.fetchCalled id acct.cookies])
        | FetchResult.throws =>
            (Except.error "fetchLiveRooms exception", s1,
             checked.2.2 ++ [Ev.fetchCalled id acct.cookies])

/-- `removeAccount(advId)`: delete from registry, queue and store. -/
def removeAccount (env : Env) (id : String) (s : AuthState) : Bool × AuthState :=
  (env.dbDelete id,
   { s with accounts := s.accounts.filter (fun p => p.1 ≠ id),
            authQueue := queueErase id s.authQueue })

/-- `getLiveRooms(advId)` (current revision): reject an unregistered id;
stale-snapshot early return while `authorizing`; otherwise fetch with the
held cookies, invalidating (cookies cleared) and enqueueing on a `null`
result, or enqueue directly when no cookies are held. -/
def getLiveRooms (env : Env) (id : String) (s : AuthState) :
    Except String (List LiveRoomData × List LiveRoomData) × AuthState × List Ev :=
  match findAcc id s.accounts with
  | none => (Except.error "account not initialized", s, [])
  | some acct =>
      if acct.cookieStatus = CookieStatus.authorizing then
        (Except.ok (acct.liveRooms, acct.endedRooms), s, [])
      else if !acct.cookies.isEmpty then
        match env.fetch id acct.cookies with
        | FetchResult.ok live ended =>
            (Except.ok (live, ended),
             { s with accounts := updAcc id (fun a =>
                 { a with liveRooms := live, endedRooms := ended,
                          lastFetchTime := env.now,
                          cookieStatus := CookieStatus.valid }) s.accounts },
             [Ev.fetchCalled id acct.cookies])
        | FetchResult.nullResult =>
            let s2 : AuthState := { s with accounts := updAcc id (fun a =>
                 { a with cookieStatus := CookieStatus.invalid, cookies := [] }) s.accounts }
            (Except.ok (acct.liveRooms, acct.endedRooms), enqueueAuth id s2,
             [Ev.fetchCalled id acct.cookies])
        | FetchResult.throws =>
            (Except.error "fetchLiveRooms exception", s, [Ev.fetchCalled id acct.cookies])
      else
        (Except.ok (acct.liveRooms, acct.endedRooms), enqueueAuth id s, [])

/-- Body of one account's iteration of the `startAutoRefresh` sweep; the
`refreshingAccounts` in-flight guard is the identity here because the
iteration is modelled atomically. -/
def refreshAccountTick (env : Env) (id : String) (s : AuthState) : AuthState × List Ev :=
  match findAcc id s.accounts with
  | none => (s, [])
  | some acct =>
      if acct.cookieStatus = CookieStatus.authorizing then (s, [])
      else if !acct.cookies.isEmpty then
        match env.fetch id acct.cookies with
        | FetchResult.ok live ended =>
            ({ s with accounts := updAcc id (fun a =>
                 { a with liveRooms := live, endedRooms := ended,
                          lastFetchTime := env.now,
                          cookieStatus := CookieStatus.valid }) s.accounts },
             [Ev.fetchCalled id acct.cookies])
        | FetchResult.nullResult =>
            let s2 : AuthState := { s with accounts := updAcc id (fun a =>
                 { a with cookieStatus := CookieStatus.invalid, cookies := [] }) s.accounts }
            (enqueueAuth id s2, [Ev.fetchCalled id acct.cookies])
        | FetchResult.throws => (s, [Ev.fetchCalled id acct.cookies])
      else (s, [])

/-- Effect of a successful `startAgentAuth` on the orchestrator state: every
registered account is marked `authorizing` and added to the queue, then the
`finally` block triggers `processAuthQueue`. -/
def agentReauthorize (s : AuthState) : AuthState :=
  let ids := s.accounts.map Prod.fst
  processAuthQueueStart
    { s with
      accounts := s.accounts.map
        (fun p => (p.1, { p.2 with cookieStatus := CookieStatus.authorizing })),
      authQueue := ids.foldl (fun q id => queueAdd id q) s.authQueue }

/-- Atomic machine actions: the public registry operations, the internal
enqueue (all of whose call sites in auth-manager.ts pass an id already
registered in `accounts`, hence the guard), the three drain phases, and the
full-reauthorization sweep. -/
inductive Act where
  | enqueue (id : String)
  | drainAgentAct
  | drainStepAct
  | drainFinishAct
  | add (id : String) (nm : Option String)
  | remove (id : String)
  | getRooms (id : String)
  | refresh (id : String)
  | agentReauth
deriving DecidableEq, Repr

/-- Deterministic state transition of the coarse machine: the drain is split
at its `await` boundaries, but each public operation runs to completion in
one action.  `getLiveRooms`, the auto-refresh iteration and `addAccount` do
suspend at their own `await`s in the source; the finer machine `stepI` below
splits them there, and properties sensitive to those interleavings are
settled on `stepI`.  (The event traces of the underlying operations are
studied separately, on the operation functions themselves.) -/
def stepA (env : Env) (a : Act) (s : AuthState) : AuthState :=
  match a with
  | Act.enqueue id =>
      if (findAcc id s.accounts).isSome then enqueueAuth id s else s
  | Act.drainAgentAct => (drainAgent env s).1
  | Act.drainStepAct => (drainStep env s).1
  | Act.drainFinishAct => drainFinish s
  | Act.add id nm => (addAccount env id nm s).2.1
  | Act.remove id => (removeAccount env id s).2
  | Act.getRooms id => (getLiveRooms env id s).2.1
  | Act.refresh id => (refreshAccountTick env id s).1
  | Act.agentReauth => agentReauthorize s

/-- States reachable from the fresh manager under a fixed environment. -/
inductive Reachable (env : Env) : AuthState → Prop where
  | init : Reachable env AuthState.init
  | step (a : Act) {s : AuthState} : Reachable env s → Reachable env (stepA env a s)

/-- Whether the drain's agent-resolution phase ends with a usable agent
session (headless reuse or successful interactive login), as opposed to the
fail-closed paths (malformed stored cookies / login timeout). -/
def agentPhaseOk (env : Env) : Bool :=
  match env.agentCookies with
  | AgentCookiesField.malformed => false
  | AgentCookiesField.parsed cs =>
      if cs.isEmpty then env.loginOk else (env.validateAgent cs || env.loginOk)
  | _ => env.loginOk

/-- JavaScript `str.replace(/^\./, '')`. -/
def stripLeadingDot (s : String) : String :=
  if s.startsWith "." then s.drop 1 else s

/-- JavaScript `hay.includes(needle)`: substring test. -/
def strIncludes (hay needle : String) : Bool :=
  decide (List.IsInfix needle.data hay.data)

/-- `buildCookieString` from cookie-manager.ts: filter the cookies whose
(leading-dot-stripped) domain occurs in the request domain, render each as
`name=value`, join with `"; "`. -/
def buildCookieString (cookies : List CookieData) (domain : String) : String :=
  String.intercalate "; "
    ((cookies.filter (fun c => strIncludes domain (stripLeadingDot c.domain))).map
      (fun c => c.name ++ "=" ++ c.value))

/-- The parsed JSON body of the agent user-info probe, as far as
`validateAgentCookies` inspects it: the truthiness of `data` and of
`data.data`, and the numeric `data.code`. -/
structure AgentProbeBody where
  truthy : Bool
  dataTruthy : Bool
  code : Int
deriving DecidableEq, Repr

/-- The parsed JSON body of the account user-info probe, as far as
`validateAccountCookies` inspects it. -/
structure AccountProbeBody where
  truthy : Bool
  codeZero : Bool
  codeSuccess : Bool
  statusCodeZero : Bool
  dataTruthy : Bool
deriving DecidableEq, Repr

/-- Outcome of the single external probe `fetch` performed by a validator:
the promise rejects (network error), or a response arrives with a status code
and a body that either parses (`some`) or fails to parse (`none`, i.e.
`response.json()` throws inside the `try`). -/
inductive ProbeOutcome (β : Type) where
  | netError
  | response (status : Nat) (body : Option β)
deriving DecidableEq, Repr

/-- A probe outcome the spec classifies as a failure: network error, non-200
response, or response-parse failure. -/
def probeFailed {β : Type} : ProbeOutcome β → Bool
  | ProbeOutcome.netError => true
  | ProbeOutcome.response status body => status != 200 || body.isNone

/-- `validateAgentCookies(cookies)` from cookie-manager.ts: one probe of the
agent user-info endpoint with the built cookie string; `true` exactly when a
200 response parses and `data && data.data && data.code !== 8`; every failure
is caught and returns `false`. -/
def validateAgentCookies (probe : String → ProbeOutcome AgentProbeBody)
    (cookies : List CookieData) : Bool :=
  match probe (buildCookieString cookies "oceanengine.com") with
  | ProbeOutcome.netError => false
  | ProbeOutcome.response status body =>
      if status = 200 then
        match body with
        | some d => d.truthy && d.dataTruthy && d.code != 8
        | none => false
      else false

/-- `validateAccountCookies(advId, cookies)` from cookie-manager.ts: one
probe of the account user-info endpoint; `true` exactly when a 200 response
parses and `data && (data.code === 0 || data.code === 'success' ||
data.status_code === 0) && data.data`; every failure is caught and returns
`false`. -/
def validateAccountCookies (probe : String → String → ProbeOutcome AccountProbeBody)
    (advId : String) (cookies : List CookieData) : Bool :=
  match probe advId (buildCookieString cookies "chengzijianzhan.cn") with
  | ProbeOutcome.netError => false
  | ProbeOutcome.response status body =>
      if status = 200 then
        match body with
        | some d => d.truthy && (d.codeZero || d.codeSuccess || d.statusCodeZero) && d.dataTruthy
        | none => false
      else false

/-- List-level queue/status coupling: every registered account is in the
queue exactly when its status is `authorizing`. -/
def CoupledL (q : List String) (m : List (String × AccountData)) : Prop :=
  ∀ id acc, findAcc id m = some acc →
    (id ∈ q ↔ acc.cookieStatus = CookieStatus.authorizing)

/-- List-level registration of queued ids. -/
def QueueRegL (q : List String) (m : List (String × AccountData)) : Prop :=
  ∀ id, id ∈ q → (findAcc id m).isSome = true

/-- List-level: a `valid` status always comes with a non-empty cookie set. -/
def VNL (m : List (String × AccountData)) : Prop :=
  ∀ id acc, findAcc id m = some acc →
    acc.cookieStatus = CookieStatus.valid → acc.cookies ≠ []

/-- Queue/status coupling on a manager state. -/
def Coupled (s : AuthState) : Prop := CoupledL s.authQueue s.accounts

/-- Every queued id is registered (holds because every `enqueueAuth` call
site passes a registered id). -/
def QueueReg (s : AuthState) : Prop := QueueRegL s.authQueue s.accounts

/-- The inductive invariant for the coupling claim. -/
def InvQ (s : AuthState) : Prop := Coupled s ∧ QueueReg s

/-- A `valid` status always comes with a non-empty cookie set. -/
def ValidNonempty (s : AuthState) : Prop := VNL s.accounts

/-- The combined inductive invariant maintained by every machine action. -/
def Inv3 (s : AuthState) : Prop := Coupled s ∧ QueueReg s ∧ ValidNonempty s

/-- A sample cookie for concrete runs. -/
def c0 : CookieData :=
  { name := "sessionid", value := "s0", domain := ".chengzijianzhan.cn",
    path := "/", expires := -1, httpOnly := true, secure := true, sameSite := none }

/-- A sample agent cookie for concrete runs. -/
def cAg : CookieData :=
  { name := "agent_session", value := "g0", domain := ".oceanengine.com",
    path := "/", expires := -1, httpOnly := true, secure := true, sameSite := none }

/-- A registered account in `authorizing` state with an empty cookie set. -/
def acctA : AccountData :=
  { advId := "a1", name := none, liveRooms := [], endedRooms := [],
    lastFetchTime := 0, cookies := [], cookieStatus := CookieStatus.authorizing }

/-- Base environment for concrete runs: no stored agent cookies, interactive
login succeeds, every traversal returns the sample cookie, every fetch
returns an empty result object. -/
def env0 : Env :=
  { validateAgent := fun _ => false,
    validateAccount := fun _ _ => false,
    loginOk := true,
    traverse := fun _ => TraverseResult.ok [c0],
    fetch := fun _ _ => FetchResult.ok [] [],
    now := 5,
    agentCookies := AgentCookiesField.absent,
    agentStatus := "unknown",
    storedCookies := fun _ => none,
    dbDelete := fun _ => true }

/-- One-account state with `a1` queued for authorization, drain idle. -/
def s4 : AuthState :=
  { accounts := [("a1", acctA)], authQueue := ["a1"], isAuthRunning := false,
    authProgress := AuthProgress.idle, drain := DrainLocal.idle }

/-- A state in which a drain is running and has exhausted its batch. -/
def sfin : AuthState :=
  { accounts := [("a1", acctA)], authQueue := [], isAuthRunning := true,
    authProgress := ⟨true, some "a1", 1, 1⟩, drain := DrainLocal.looping [] }

/-- `this.accounts.set(advId, account)`: replace any existing entry for the
id, else append (used by the `addAccount` continuation, which registers only
after its `await` and may overwrite what a concurrent call registered). -/
def setAcc (id : String) (a : AccountData)
    (m : List (String × AccountData)) : List (String × AccountData) :=
  if (findAcc id m).isSome then updAcc id (fun _ => a) m else m ++ [(id, a)]

/-- Synchronous completion of `addAccount` when no stored cookie record
passes the `record?.cookies && record.cookies !== '[]'` guard: register with
`unknown` status and empty cookies, then `enqueueAuth` (`unknown` is not
`valid`); no `await` is reached on this path. -/
def addUnknown (id : String) (nm : Option String) (s : AuthState) : AuthState :=
  enqueueAuth id
    { s with accounts := s.accounts ++ [(id,
        { advId := id, name := nm, liveRooms := [], endedRooms := [],
          lastFetchTime := 0, cookies := [], cookieStatus := CookieStatus.unknown })] }

/-- Continuation of `addAccount` after its `await validateAccountCookies(...)`
resumes: build the account object from the validation outcome, register it,
then either enqueue (status not `valid`) or run the immediate metrics fetch,
whose `if (result)` guard writes only the room fields.  The suspension at
that second fetch is folded into this action: between it and its resume the
source writes no status, queue, flag or cookie field. -/
def avApply (env : Env) (id : String) (nm : Option String)
    (cs : List CookieData) (s : AuthState) : AuthState :=
  if env.validateAccount id cs then
    let acct : AccountData :=
      { advId := id, name := nm, liveRooms := [], endedRooms := [],
        lastFetchTime := 0, cookies := cs, cookieStatus := CookieStatus.valid }
    let s1 : AuthState := { s with accounts := setAcc id acct s.accounts }
    match env.fetch id cs with
    | FetchResult.ok live ended =>
        { s1 with accounts := updAcc id (fun a =>
            { a with liveRooms := live, endedRooms := ended,
                     lastFetchTime := env.now }) s1.accounts }
    | _ => s1
  else
    let acct0 : AccountData :=
      { advId := id, name := nm, liveRooms := [], endedRooms := [],
        lastFetchTime := 0, cookies := [], cookieStatus := CookieStatus.invalid }
    enqueueAuth id { s with accounts := setAcc id acct0 s.accounts }

/-- Shared continuation of `getLiveRooms` and the auto-refresh iteration
after their `await fetchLiveRooms(advId, cookies)` resumes (the two source
bodies are line-for-line the same): on a result object, write the room
fields, `lastFetchTime` and `cookieStatus = 'valid'` — cookies untouched; on
`null`, mark `invalid`, clear the cookies and call `enqueueAuth`; on a raised
error, no state change (`getLiveRooms` propagates it to the IPC layer, the
sweep's `catch` only logs).  The fetch argument is the cookie list captured
before the suspension; the writes target the registry's current entry for
the id — the very object captured at call time, unless the account was
removed meanwhile, in which case the source's writes land on the detached
object and only the `enqueueAuth` call is registry-visible, as here
(re-registration of a removed id during a pending fetch is not modelled,
since `addAccount` always creates a fresh object). -/
def fetchResolveApply (env : Env) (id : String) (cs : List CookieData)
    (s : AuthState) : AuthState :=
  match env.fetch id cs with
  | FetchResult.ok live ended =>
      { s with accounts := updAcc id (fun a =>
          { a with liveRooms := live, endedRooms := ended,
                   lastFetchTime := env.now,
                   cookieStatus := CookieStatus.valid }) s.accounts }
  | FetchResult.nullResult =>
      enqueueAuth id
        { s with accounts := updAcc id (fun a =>
            { a with cookieStatus := CookieStatus.invalid, cookies := [] }) s.accounts }
  | FetchResult.throws => s

/-- The ids a suspended drain still owes a terminal status. -/
def drainPend : DrainLocal → List String
  | DrainLocal.idle => []
  | DrainLocal.agentPhase p => p
  | DrainLocal.looping r => r

/-- State of the finer interleaved machine: the manager state plus the local
frames of suspended `getLiveRooms` calls, auto-refresh iterations and
`addAccount` calls (each frame holds the arguments captured before its
suspension), and the `refreshingAccounts` set. -/
structure IState where
  base : AuthState
  glPend : List (String × List CookieData)
  rtPend : List (String × List CookieData)
  avPend : List (String × Option String × List CookieData)
  refreshing : List String
deriving DecidableEq, Repr

/-- The fresh manager, no suspended calls. -/
def IState.init : IState :=
  { base := AuthState.init, glPend := [], rtPend := [], avPend := [],
    refreshing := [] }

/-- Actions of the finer machine: as `Act`, but `getLiveRooms`, the
auto-refresh iteration and `addAccount` are split at their `await`s into a
start (the synchronous prefix, possibly suspending a frame) and a resolution
(the post-`await` continuation applied to one suspended frame; frames
resolve in any order, as promises settle in completion order). -/
inductive ActI where
  | enqueue (id : String)
  | drainAgentAct
  | drainStepAct
  | drainFinishAct
  | remove (id : String)
  | agentReauth
  | addStart (id : String) (nm : Option String)
  | addResolve (k : Nat)
  | glStart (id : String)
  | glResolve (k : Nat)
  | rtStart (id : String)
  | rtResolve (k : Nat)
deriving DecidableEq, Repr

/-- Transition of the finer machine.  The start actions run exactly the
synchronous prefixes of their operations: `addAccount`'s registered-id
dedup; `getLiveRooms`'s unregistered throw, `authorizing` snapshot return and
empty-cookies immediate enqueue; the sweep iteration's `refreshingAccounts`
guard, `authorizing` skip and empty-cookies skip. -/
def stepI (env : Env) (a : ActI) (t : IState) : IState :=
  match a with
  | ActI.enqueue id =>
      if (findAcc id t.base.accounts).isSome
      then { t with base := enqueueAuth id t.base } else t
  | ActI.drainAgentAct => { t with base := (drainAgent env t.base).1 }
  | ActI.drainStepAct => { t with base := (drainStep env t.base).1 }
  | ActI.drainFinishAct => { t with base := drainFinish t.base }
  | ActI.remove id => { t with base := (removeAccount env id t.base).2 }
  | ActI.agentReauth => { t with base := agentReauthorize t.base }
  | ActI.addStart id nm =>
      match findAcc id t.base.accounts with
      | some _ => t
      | none =>
          match env.storedCookies id with
          | some cs =>
              if cs.isEmpty then { t with base := addUnknown id nm t.base }
              else { t with avPend := t.avPend ++ [(id, nm, cs)] }
          | none => { t with base := addUnknown id nm t.base }
  | ActI.addResolve k =>
      match t.avPend.get? k with
      | some f =>
          { t with avPend := t.avPend.eraseIdx k,
                   base := avApply env f.1 f.2.1 f.2.2 t.base }
      | none => t
  | ActI.glStart id =>
      match findAcc id t.base.accounts with
      | none => t
      | some acct =>
          if acct.cookieStatus = CookieStatus.authorizing then t
          else if !acct.cookies.isEmpty then
            { t with glPend := t.glPend ++ [(id, acct.cookies)] }
          else { t with base := enqueueAuth id t.base }
  | ActI.glResolve k =>
      match t.glPend.get? k with
      | some f =>
          { t with glPend := t.glPend.eraseIdx k,
                   base := fetchResolveApply env f.1 f.2 t.base }
      | none => t
  | ActI.rtStart id =>
      if id ∈ t.refreshing then t
      else
        match findAcc id t.base.accounts with
        | none => t
        | some acct =>
            if acct.cookieStatus = CookieStatus.authorizing then t
            else if !acct.cookies.isEmpty then
              { t with refreshing := t.refreshing ++ [id],
                       rtPend := t.rtPend ++ [(id, acct.cookies)] }
            else t
  | ActI.rtResolve k =>
      match t.rtPend.get? k with
      | some f =>
          { t with rtPend := t.rtPend.eraseIdx k,
                   refreshing := t.refreshing.filter (fun x => x ≠ f.1),
                   base := fetchResolveApply env f.1 f.2 t.base }
      | none => t

/-- States reachable in the finer machine from the fresh manager. -/
inductive ReachableI (env : Env) : IState → Prop where
  | init : ReachableI env IState.init
  | step (a : ActI) {t : IState} : ReachableI env t → ReachableI env (stepI env a t)

/-- Every `authorizing` account is still owed work: its id is in the queue
or in the running drain's pending batch. -/
def AuthzTracked (s : AuthState) : Prop :=
  ∀ id acc, findAcc id s.accounts = some acc →
    acc.cookieStatus = CookieStatus.authorizing →
    id ∈ s.authQueue ∨ (s.isAuthRunning = true ∧ id ∈ drainPend s.drain)

/-- A non-empty queue always has a running drain: every site that adds to
the queue calls `processAuthQueue` synchronously afterwards. -/
def QueueRun (s : AuthState) : Prop :=
  s.authQueue ≠ [] → s.isAuthRunning = true

/-- Inductive invariant of the finer machine (on the manager component). -/
def InvW (s : AuthState) : Prop := AuthzTracked s ∧ QueueRun s

/-- Environment for the overlapping-fetch race on the queue/status coupling:
one stored account record holding the sample cookie, account validation
succeeds, every metrics fetch resolves `null`. -/
def envC2 : Env :=
  { env0 with storedCookies := fun _ => some [c0],
              validateAccount := fun _ _ => true,
              fetch := fun _ _ => FetchResult.nullResult }

/-- The race: register `a1` from the store (`valid`, cookies held), issue two
overlapping `getLiveRooms` fetches, then resolve both (`null`): the first
resolution invalidates, clears and enqueues (status back to `authorizing`),
the second writes `invalid` again and hits `enqueueAuth`'s `authQueue.has`
early-return. -/
def tC2 : IState :=
  stepI envC2 (ActI.glResolve 0)
    (stepI envC2 (ActI.glResolve 0)
      (stepI envC2 (ActI.glStart "a1")
        (stepI envC2 (ActI.glStart "a1")
          (stepI envC2 (ActI.addResolve 0)
            (stepI envC2 (ActI.addStart "a1" none) IState.init)))))

/-- Environment for the stale-`valid` race: the fetch outcome depends on the
cookie argument — a result object for the originally stored cookie, `null`
for the cookie the drain later installs — and the stored agent session
validates headlessly. -/
def envC4i : Env :=
  { env0 with storedCookies := fun _ => some [c0],
              validateAccount := fun _ _ => true,
              validateAgent := fun _ => true,
              agentCookies := AgentCookiesField.parsed [cAg],
              traverse := fun _ => TraverseResult.ok [cAg],
              fetch := fun _ cs =>
                if cs = [c0] then FetchResult.ok [] [] else FetchResult.nullResult }

/-- The race: register `a1` from the store (`valid`, cookies `[c0]`), leave
one `getLiveRooms` fetch with `[c0]` pending, run a full drain that installs
fresh cookies `[cAg]`, issue a second fetch with `[cAg]` and resolve it
(`null`: cookies cleared, re-enqueued), then resolve the stale first fetch
(a result object: status written back to `valid`, cookies untouched — empty). -/
def tC4 : IState :=
  stepI envC4i (ActI.glResolve 0)
    (stepI envC4i (ActI.glResolve 1)
      (stepI envC4i (ActI.glStart "a1")
        (stepI envC4i ActI.drainFinishAct
          (stepI envC4i ActI.drainStepAct
            (stepI envC4i ActI.drainAgentAct
              (stepI envC4i (ActI.enqueue "a1")
                (stepI envC4i (ActI.glStart "a1")
                  (stepI envC4i (ActI.addResolve 0)
                    (stepI envC4i (ActI.addStart "a1" none) IState.init)))))))))

theorem mem_queueErase {x id : String} {q : List String} :
    x ∈ queueErase id q ↔ x ∈ q ∧ x ≠ id := by
  simp [queueErase, List.mem_filter]

theorem mem_queueAdd {x id : String} {q : List String} :
    x ∈ queueAdd id q ↔ x ∈ q ∨ x = id := by
  unfold queueAdd
  split
  · next h =>
      constructor
      · exact Or.inl
      · rintro (hx | rfl)
        · exact hx
        · exact h
  · simp [List.mem_append]

theorem findAcc_updAcc (id x : String) (f : AccountData → AccountData)
    (m : List (String × AccountData)) :
    findAcc x (updAcc id f m) =
      if x = id then (findAcc x m).map f else findAcc x m := by
  induction m with
  | nil => simp [updAcc, findAcc]
  | cons p rest ih =>
      simp only [updAcc, List.map_cons] at ih ⊢
      by_cases hpid : p.1 = id
      · by_cases hpx : p.1 = x
        · have hxid : x = id := by rw [← hpx, hpid]
          simp [findAcc, hpid, hpx, hxid]
        · have hidx : ¬id = x := by
            intro h
            exact hpx (by rw [hpid, h])
          simp [findAcc, hpid, hpx, hidx, ih]
      · by_cases hpx : p.1 = x
        · have hxid : ¬x = id := by
            intro h
            exact hpid (by rw [hpx, h])
          simp [findAcc, hpid, hpx, hxid]
        · simp [findAcc, hpid, hpx, ih]

theorem findAcc_setStatus (id x : String) (st : CookieStatus)
    (m : List (String × AccountData)) :
    findAcc x (setStatus id st m) =
      if x = id then (findAcc x m).map (fun a => { a with cookieStatus := st })
      else findAcc x m :=
  findAcc_updAcc id x _ m

theorem isSome_findAcc_updAcc (id x : String) (f : AccountData → AccountData)
    (m : List (String × AccountData)) :
    (findAcc x (updAcc id f m)).isSome = (findAcc x m).isSome := by
  rw [findAcc_updAcc]
  split
  · cases findAcc x m <;> rfl
  · rfl

theorem findAcc_append (x : String) (m : List (String × AccountData))
    (id : String) (a : AccountData) :
    findAcc x (m ++ [(id, a)]) =
      match findAcc x m with
      | some r => some r
      | none => if id = x then some a else none := by
  induction m with
  | nil => simp [findAcc, eq_comm]
  | cons p rest ih =>
      by_cases hpx : p.1 = x
      · simp [findAcc, hpx]
      · simpa [findAcc, hpx] using ih

theorem findAcc_filterNe {id x : String} (m : List (String × AccountData))
    (hx : x ≠ id) :
    findAcc x (m.filter (fun p => p.1 ≠ id)) = findAcc x m := by
  induction m with
  | nil => rfl
  | cons p rest ih =>
      by_cases hpid : p.1 = id <;> by_cases hpx : p.1 = x <;>
        simp_all [List.filter_cons, findAcc]

theorem findAcc_filter_self (id : String) (m : List (String × AccountData)) :
    findAcc id (m.filter (fun p => p.1 ≠ id)) = none := by
  induction m with
  | nil => rfl
  | cons p rest ih =>
      by_cases hpid : p.1 = id <;> simp_all [List.filter_cons, findAcc]

theorem findAcc_mapAll (x : String) (f : AccountData → AccountData)
    (m : List (String × AccountData)) :
    findAcc x (m.map (fun p => (p.1, f p.2))) = (findAcc x m).map f := by
  induction m with
  | nil => rfl
  | cons p rest ih =>
      by_cases hpx : p.1 = x
      · simp [findAcc, hpx]
      · simp [findAcc, hpx, ih]

theorem mem_keys_of_findAcc {x : String} {m : List (String × AccountData)}
    (h : (findAcc x m).isSome = true) : x ∈ m.map Prod.fst := by
  induction m with
  | nil => simp [findAcc] at h
  | cons p rest ih =>
      by_cases hpx : p.1 = x
      · simp [hpx]
      · simp only [findAcc, hpx, if_false] at h
        simp [ih h]

theorem mem_foldl_queueAdd (ids : List String) (q : List String) (x : String) :
    x ∈ ids.foldl (fun acc id => queueAdd id acc) q ↔ x ∈ q ∨ x ∈ ids := by
  induction ids generalizing q with
  | nil => simp
  | cons i rest ih =>
      simp only [List.foldl_cons, ih, mem_queueAdd, List.mem_cons]
      tauto

theorem pAQS_accounts (s : AuthState) :
    (processAuthQueueStart s).accounts = s.accounts := by
  unfold processAuthQueueStart
  split <;> rfl

theorem pAQS_queue (s : AuthState) :
    (processAuthQueueStart s).authQueue = s.authQueue := by
  unfold processAuthQueueStart
  split <;> rfl

theorem pAQS_running_true (s : AuthState) (h : s.isAuthRunning = true) :
    processAuthQueueStart s = s := by
  unfold processAuthQueueStart
  simp [h]

theorem pAQS_running_false_eq (s : AuthState)
    (h : (processAuthQueueStart s).isAuthRunning = false) :
    processAuthQueueStart s = s := by
  unfold processAuthQueueStart at h ⊢
  split at h
  · split
    · rfl
    · simp_all
  · simp at h

theorem enqueueAuth_running (id : String) (s : AuthState)
    (h : s.isAuthRunning = true) :
    (enqueueAuth id s).isAuthRunning = true := by
  unfold enqueueAuth
  split
  · exact h
  · rw [pAQS_running_true _ (by simpa using h)]
    simpa using h

theorem drainAccountStep_running (env : Env) (id : String) (s : AuthState) :
    (drainAccountStep env id s).1.isAuthRunning = s.isAuthRunning := by
  unfold drainAccountStep
  cases env.traverse id with
  | throws => rfl
  | ok cs =>
      dsimp only
      cases findAcc id s.accounts with
      | none => rfl
      | some a =>
          dsimp only
          by_cases hcs : cs.isEmpty
          · simp [hcs]
          · simp only [hcs, if_false, Bool.false_eq_true]
            cases env.fetch id cs <;> rfl

/-- C7: for every registered account whose status is `authorizing`,
`getLiveRooms` returns the previous liveRooms/endedRooms snapshot, leaves the
whole manager state (status, cookies, lastFetchTime, queue) unchanged, and
performs no external call (in particular no metrics fetch and no duplicate
enqueue). -/
theorem c7_stale_read_on_busy_account (env : Env) (id : String) (s : AuthState)
    (acc : AccountData) (hfind : findAcc id s.accounts = some acc)
    (hst : acc.cookieStatus = CookieStatus.authorizing) :
    getLiveRooms env id s = (Except.ok (acc.liveRooms, acc.endedRooms), s, []) := by
  unfold getLiveRooms
  rw [hfind]
  simp [hst]

theorem c7_stale_read_on_busy_account_witness :
    findAcc "a1" s4.accounts = some acctA
    ∧ acctA.cookieStatus = CookieStatus.authorizing
    ∧ getLiveRooms env0 "a1" s4 = (Except.ok (acctA.liveRooms, acctA.endedRooms), s4, []) :=
  ⟨rfl, rfl, c7_stale_read_on_busy_account env0 "a1" s4 acctA rfl rfl⟩

/-- C10: `getLiveRooms` on an id absent from the in-memory registry rejects
with the account-not-initialized error, leaves the state unchanged (no
registry entry created, nothing enqueued) and performs no external call. -/
theorem c10_unregistered_get_rejects (env : Env) (id : String) (s : AuthState)
    (h : findAcc id s.accounts = none) :
    getLiveRooms env id s = (Except.error "account not initialized", s, []) := by
  unfold getLiveRooms
  rw [h]

theorem c10_unregistered_get_rejects_witness :
    findAcc "zz" s4.accounts = none
    ∧ getLiveRooms env0 "zz" s4 = (Except.error "account not initialized", s4, []) :=
  ⟨by decide, c10_unregistered_get_rejects env0 "zz" s4 (by decide)⟩

/-- C9: both validators are total Boolean functions of their probe outcome
(they are Lean functions into `Bool`, so they never raise), and every failing
probe outcome — network error, non-200 status, or response-parse failure —
yields `false`, for any input cookie set. -/
theorem c9_validator_totality
    (pa : String → ProbeOutcome AgentProbeBody)
    (pb : String → String → ProbeOutcome AccountProbeBody)
    (advId : String) (csA csB : List CookieData)
    (ha : probeFailed (pa (buildCookieString csA "oceanengine.com")) = true)
    (hb : probeFailed (pb advId (buildCookieString csB "chengzijianzhan.cn")) = true) :
    validateAgentCookies pa csA = false
    ∧ validateAccountCookies pb advId csB = false := by
  constructor
  · unfold validateAgentCookies
    cases hpa : pa (buildCookieString csA "oceanengine.com") with
    | netError => rfl
    | response st body =>
        rw [hpa] at ha
        unfold probeFailed at ha
        by_cases hst : st = 200
        · subst hst
          simp only [bne_self_eq_false, Bool.false_or] at ha
          rw [Option.isNone_iff_eq_none] at ha
          subst ha
          simp
        · simp [hst]
  · unfold validateAccountCookies
    cases hpb : pb advId (buildCookieString csB "chengzijianzhan.cn") with
    | netError => rfl
    | response st body =>
        rw [hpb] at hb
        unfold probeFailed at hb
        by_cases hst : st = 200
        · subst hst
          simp only [bne_self_eq_false, Bool.false_or] at hb
          rw [Option.isNone_iff_eq_none] at hb
          subst hb
          simp
        · simp [hst]

theorem c9_validator_totality_witness :
    probeFailed ((fun _ => ProbeOutcome.netError : String → ProbeOutcome AgentProbeBody)
        (buildCookieString [] "oceanengine.com")) = true
    ∧ probeFailed ((fun _ _ => ProbeOutcome.response 502 none :
          String → String → ProbeOutcome AccountProbeBody)
        "a1" (buildCookieString [] "chengzijianzhan.cn")) = true
    ∧ validateAgentCookies (fun _ => ProbeOutcome.netError) [] = false
    ∧ validateAccountCookies (fun _ _ => ProbeOutcome.response 502 none) "a1" [] = false := by
  refine ⟨rfl, rfl, ?_⟩
  exact c9_validator_totality (fun _ => ProbeOutcome.netError)
    (fun _ _ => ProbeOutcome.response 502 none) "a1" [] [] rfl rfl

theorem failDrain_flip_idle (p : List String) (s : AuthState)
    (h : (failDrain p s).isAuthRunning = false) :
    (failDrain p s).drain = DrainLocal.idle := by
  unfold failDrain at h ⊢
  rw [pAQS_running_false_eq _ h]

theorem loginFallback_flip_idle (env : Env) (p : List String) (s : AuthState)
    (ev0 : List Ev) (hrun : s.isAuthRunning = true)
    (h : (loginFallback env p s ev0).1.isAuthRunning = false) :
    (loginFallback env p s ev0).1.drain = DrainLocal.idle := by
  unfold loginFallback at h ⊢
  split at h
  · rw [hrun] at h
    simp at h
  · next hl =>
      simp only [hl, if_false, Bool.false_eq_true]
      exact failDrain_flip_idle p s h

theorem drainAgent_flip_idle (env : Env) (s : AuthState)
    (hrun : s.isAuthRunning = true)
    (h : (drainAgent env s).1.isAuthRunning = false) :
    (drainAgent env s).1.drain = DrainLocal.idle := by
  unfold drainAgent at h ⊢
  cases hd : s.drain with
  | idle => rw [hd] at h; rw [hrun] at h; simp at h
  | looping r => rw [hd] at h; rw [hrun] at h; simp at h
  | agentPhase p =>
      rw [hd] at h
      cases hac : env.agentCookies with
      | malformed =>
          rw [hac] at h
          exact failDrain_flip_idle p s h
      | parsed cs =>
          rw [hac] at h
          by_cases hcs : cs.isEmpty
          · simp only [hcs, if_true] at h ⊢
            exact loginFallback_flip_idle env p s [] hrun h
          · by_cases hv : env.validateAgent cs = true
            · simp only [hcs, hv, if_false, if_true, Bool.false_eq_true] at h
              rw [hrun] at h
              simp at h
            · simp only [hcs, if_false, Bool.false_eq_true,
                Bool.not_eq_true] at h ⊢
              rw [Bool.not_eq_true] at hv
              simp only [hv, Bool.false_eq_true, if_false] at h ⊢
              exact loginFallback_flip_idle env p s _ hrun h
      | absent =>
          rw [hac] at h
          exact loginFallback_flip_idle env p s [] hrun h
      | emptyJson =>
          rw [hac] at h
          exact loginFallback_flip_idle env p s [] hrun h

theorem drainFinish_flip_idle (s : AuthState)
    (hrun : s.isAuthRunning = true)
    (h : (drainFinish s).isAuthRunning = false) :
    (drainFinish s).drain = DrainLocal.idle := by
  unfold drainFinish at h ⊢
  cases hd : s.drain with
  | idle => rw [hd] at h; rw [hrun] at h; simp at h
  | agentPhase p => rw [hd] at h; rw [hrun] at h; simp at h
  | looping r =>
      cases r with
      | nil =>
          rw [hd] at h
          rw [pAQS_running_false_eq _ h]
      | cons x xs => rw [hd] at h; rw [hrun] at h; simp at h

theorem drainStep_running (env : Env) (s : AuthState) :
    (drainStep env s).1.isAuthRunning = s.isAuthRunning := by
  unfold drainStep
  split
  · rw [drainAccountStep_running]
  · rfl

theorem addAccount_running (env : Env) (id : String) (nm : Option String)
    (s : AuthState) (h : s.isAuthRunning = true) :
    (addAccount env id nm s).2.1.isAuthRunning = true := by
  unfold addAccount
  repeat' (first | split | dsimp only)
  all_goals first
    | exact h
    | exact enqueueAuth_running _ _ h

theorem getLiveRooms_running (env : Env) (id : String) (s : AuthState)
    (h : s.isAuthRunning = true) :
    (getLiveRooms env id s).2.1.isAuthRunning = true := by
  unfold getLiveRooms
  repeat' split
  all_goals first
    | exact h
    | exact enqueueAuth_running _ _ h

theorem refreshAccountTick_running (env : Env) (id : String) (s : AuthState)
    (h : s.isAuthRunning = true) :
    (refreshAccountTick env id s).1.isAuthRunning = true := by
  unfold refreshAccountTick
  repeat' split
  all_goals first
    | exact h
    | exact enqueueAuth_running _ _ h

theorem agentReauthorize_running (s : AuthState) (h : s.isAuthRunning = true) :
    (agentReauthorize s).isAuthRunning = true := by
  unfold agentReauthorize
  rw [pAQS_running_true _ (by simpa using h)]
  simpa using h


/-- C1: single-flight — a `processAuthQueue` call that observes
`isAuthRunning = true` returns immediately without starting a second drain
(its synchronous prefix is the identity), and from a running-drain state the
flag can only be cleared by the two drain-completion actions (agent-phase
failure and the `finally` block), after which no batch remains in flight
(`drain = idle`). -/
theorem c1_single_flight (env : Env) (a : Act) (s : AuthState) :
    (s.isAuthRunning = true → processAuthQueueStart s = s)
    ∧ (s.isAuthRunning = true → (stepA env a s).isAuthRunning = false →
        (stepA env a s).drain = DrainLocal.idle
        ∧ (a = Act.drainAgentAct ∨ a = Act.drainFinishAct)) := by
  refine ⟨fun h => pAQS_running_true s h, fun hrun hflip => ?_⟩
  cases a with
  | enqueue id =>
      simp only [stepA] at hflip
      split at hflip
      · rw [enqueueAuth_running id s hrun] at hflip
        simp at hflip
      · rw [hrun] at hflip
        simp at hflip
  | drainAgentAct =>
      exact ⟨drainAgent_flip_idle env s hrun hflip, Or.inl rfl⟩
  | drainStepAct =>
      simp only [stepA] at hflip
      rw [drainStep_running, hrun] at hflip
      simp at hflip
  | drainFinishAct =>
      exact ⟨drainFinish_flip_idle s hrun hflip, Or.inr rfl⟩
  | add id nm =>
      simp only [stepA] at hflip
      rw [addAccount_running env id nm s hrun] at hflip
      simp at hflip
  | remove id =>
      simp only [stepA, removeAccount] at hflip
      rw [hrun] at hflip
      simp at hflip
  | getRooms id =>
      simp only [stepA] at hflip
      rw [getLiveRooms_running env id s hrun] at hflip
      simp at hflip
  | refresh id =>
      simp only [stepA] at hflip
      rw [refreshAccountTick_running env id s hrun] at hflip
      simp at hflip
  | agentReauth =>
      simp only [stepA] at hflip
      rw [agentReauthorize_running s hrun] at hflip
      simp at hflip

theorem c1_single_flight_witness :
    processAuthQueueStart sfin = sfin
    ∧ ((stepA env0 Act.drainFinishAct sfin).drain = DrainLocal.idle
        ∧ (Act.drainFinishAct = Act.drainAgentAct ∨ Act.drainFinishAct = Act.drainFinishAct)) :=
  ⟨(c1_single_flight env0 Act.drainFinishAct sfin).1 rfl,
   (c1_single_flight env0 Act.drainFinishAct sfin).2 rfl (by decide)⟩

/-- C5: fixed-batch drain — the batch is the queue snapshot taken when the
drain starts; an enqueue performed while a drain is running changes neither
the drain's local batch nor the progress record (so the in-flight batch and
its total are fixed); and when the batch is exhausted the `finally` block
either returns to idle with progress reset (queue empty) or immediately
starts a new drain whose batch is exactly the ids enqueued during the
previous drain. -/
theorem c5_fixed_batch (env : Env) (s : AuthState) (id : String) :
    (s.isAuthRunning = true →
       (stepA env (Act.enqueue id) s).drain = s.drain
       ∧ (stepA env (Act.enqueue id) s).authProgress = s.authProgress)
    ∧ (s.drain = DrainLocal.looping [] →
       (s.authQueue = [] →
          drainFinish s = { s with isAuthRunning := false,
                                   authProgress := AuthProgress.idle,
                                   drain := DrainLocal.idle })
       ∧ (s.authQueue ≠ [] →
          (drainFinish s).isAuthRunning = true
          ∧ (drainFinish s).drain = DrainLocal.agentPhase s.authQueue
          ∧ (drainFinish s).authProgress = ⟨true, none, 0, s.authQueue.length⟩)) := by
  constructor
  · intro hrun
    simp only [stepA]
    split
    · unfold enqueueAuth
      split
      · exact ⟨rfl, rfl⟩
      · rw [pAQS_running_true _ (by simpa using hrun)]
        exact ⟨rfl, rfl⟩
    · exact ⟨rfl, rfl⟩
  · intro hloop
    constructor
    · intro hq
      unfold drainFinish
      rw [hloop]
      simp [processAuthQueueStart, hq]
    · intro hq
      unfold drainFinish
      rw [hloop]
      simp [processAuthQueueStart, List.isEmpty_iff, hq]

theorem c5_fixed_batch_witness :
    ((stepA env0 (Act.enqueue "a1") sfin).drain = sfin.drain
      ∧ (stepA env0 (Act.enqueue "a1") sfin).authProgress = sfin.authProgress)
    ∧ ((drainFinish { sfin with authQueue := ["b2"] }).isAuthRunning = true
      ∧ (drainFinish { sfin with authQueue := ["b2"] }).drain = DrainLocal.agentPhase ["b2"]
      ∧ (drainFinish { sfin with authQueue := ["b2"] }).authProgress = ⟨true, none, 0, 1⟩) :=
  ⟨(c5_fixed_batch env0 sfin "a1").1 rfl,
   ((c5_fixed_batch env0 { sfin with authQueue := ["b2"] } "a1").2 rfl).2 (by decide)⟩

theorem pAQS_empty (s : AuthState) (h : s.authQueue = []) :
    processAuthQueueStart s = s := by
  unfold processAuthQueueStart
  simp [h]

theorem failMark_mem_queue (p : List String) (x : String) (s : AuthState) :
    x ∈ (failMark p s).authQueue ↔ x ∈ s.authQueue ∧ x ∉ p := by
  induction p generalizing s with
  | nil => simp [failMark]
  | cons i rest ih =>
      simp only [failMark, List.foldl_cons] at ih ⊢
      rw [ih]
      simp only [mem_queueErase, List.mem_cons]
      tauto

theorem failMark_findAcc_frame (p : List String) (x : String) (s : AuthState)
    (hx : x ∉ p) :
    findAcc x (failMark p s).accounts = findAcc x s.accounts := by
  induction p generalizing s with
  | nil => rfl
  | cons i rest ih =>
      have hxi : ¬x = i := fun h => hx (h ▸ List.mem_cons_self i rest)
      have hxr : x ∉ rest := fun h => hx (List.mem_cons_of_mem _ h)
      simp only [failMark, List.foldl_cons] at ih ⊢
      rw [ih _ hxr]
      simp [findAcc_setStatus, hxi]

theorem failMark_cons (i : String) (rest : List String) (s : AuthState) :
    failMark (i :: rest) s =
      failMark rest
        { s with authQueue := queueErase i s.authQueue,
                 accounts := setStatus i CookieStatus.invalid s.accounts } := rfl

theorem failMark_status (p : List String) (x : String) (s : AuthState)
    (hx : x ∈ p) :
    ∀ acc, findAcc x (failMark p s).accounts = some acc →
      acc.cookieStatus = CookieStatus.invalid := by
  induction p generalizing s with
  | nil => cases hx
  | cons i rest ih =>
      intro acc hacc
      by_cases hxr : x ∈ rest
      · rw [failMark_cons] at hacc
        exact ih _ hxr acc hacc
      · have hxi : x = i := by
          rcases List.mem_cons.mp hx with h | h
          · exact h
          · exact absurd h hxr
        subst hxi
        rw [failMark_cons] at hacc
        rw [failMark_findAcc_frame rest x _ hxr] at hacc
        rw [show ({ s with authQueue := queueErase x s.authQueue, accounts := setStatus x CookieStatus.invalid s.accounts } : AuthState).accounts = setStatus x CookieStatus.invalid s.accounts from rfl] at hacc
        rw [findAcc_setStatus, if_pos rfl] at hacc
        cases hfa : findAcc x s.accounts with
        | none =>
            rw [hfa] at hacc
            simp at hacc
        | some a =>
            rw [hfa] at hacc
            simp only [Option.map_some'] at hacc
            injection hacc with h
            rw [← h]

theorem failMark_queue_nil (p : List String) (s : AuthState)
    (h : ∀ x, x ∈ s.authQueue → x ∈ p) :
    (failMark p s).authQueue = [] := by
  rw [List.eq_nil_iff_forall_not_mem]
  intro x hx
  rw [failMark_mem_queue] at hx
  exact hx.2 (h x hx.1)

theorem drainFinish_accounts (s : AuthState) :
    (drainFinish s).accounts = s.accounts := by
  unfold drainFinish
  split
  · rw [pAQS_accounts]
  · rfl

theorem drainFinish_queue (s : AuthState) :
    (drainFinish s).authQueue = s.authQueue := by
  unfold drainFinish
  split
  · rw [pAQS_queue]
  · rfl

theorem drainAgent_ok (env : Env) (s : AuthState) (p : List String)
    (hd : s.drain = DrainLocal.agentPhase p) (hok : agentPhaseOk env = true) :
    (drainAgent env s).1 = { s with drain := DrainLocal.looping p } := by
  unfold drainAgent
  rw [hd]
  unfold agentPhaseOk at hok
  cases hac : env.agentCookies with
  | malformed => rw [hac] at hok; cases hok
  | parsed cs =>
      rw [hac] at hok
      by_cases hcs : cs.isEmpty
      · simp only [hcs, if_true] at hok ⊢
        unfold loginFallback
        simp [hok]
      · simp only [hcs, Bool.false_eq_true, if_false] at hok ⊢
        by_cases hv : env.validateAgent cs = true
        · simp [hv]
        · rw [Bool.not_eq_true] at hv
          rw [hv, Bool.false_or] at hok
          unfold loginFallback
          simp [hv, hok]
  | absent =>
      rw [hac] at hok
      dsimp only at hok
      unfold loginFallback
      simp [hok]
  | emptyJson =>
      rw [hac] at hok
      dsimp only at hok
      unfold loginFallback
      simp [hok]

theorem drainAgent_fail (env : Env) (s : AuthState) (p : List String)
    (hd : s.drain = DrainLocal.agentPhase p) (hbad : agentPhaseOk env = false) :
    (drainAgent env s).1 = failDrain p s := by
  unfold drainAgent
  rw [hd]
  unfold agentPhaseOk at hbad
  cases hac : env.agentCookies with
  | malformed => rfl
  | parsed cs =>
      rw [hac] at hbad
      by_cases hcs : cs.isEmpty
      · simp only [hcs, if_true] at hbad ⊢
        unfold loginFallback
        simp [hbad]
      · simp only [hcs, Bool.false_eq_true, if_false] at hbad ⊢
        rcases Bool.or_eq_false_iff.mp hbad with ⟨hv, hl⟩
        unfold loginFallback
        simp [hv, hl]
  | absent =>
      rw [hac] at hbad
      dsimp only at hbad
      unfold loginFallback
      simp [hbad]
  | emptyJson =>
      rw [hac] at hbad
      dsimp only at hbad
      unfold loginFallback
      simp [hbad]

theorem drainAccountStep_frame (env : Env) (id x : String) (s : AuthState)
    (hx : x ≠ id) :
    findAcc x (drainAccountStep env id s).1.accounts = findAcc x s.accounts
    ∧ ((x ∈ (drainAccountStep env id s).1.authQueue) ↔ x ∈ s.authQueue) := by
  unfold drainAccountStep
  constructor
  · repeat' (first | split | dsimp only)
    all_goals simp [findAcc_setStatus, findAcc_updAcc, hx]
  · repeat' (first | split | dsimp only)
    all_goals simp [mem_queueErase, hx]

theorem drainAccountStep_notmem (env : Env) (id : String) (s : AuthState) :
    id ∉ (drainAccountStep env id s).1.authQueue := by
  unfold drainAccountStep
  repeat' (first | split | dsimp only)
  all_goals simp [mem_queueErase]

theorem drainAccountStep_status (env : Env) (id : String) (s : AuthState)
    (acc : AccountData)
    (hacc : findAcc id (drainAccountStep env id s).1.accounts = some acc) :
    acc.cookieStatus = CookieStatus.valid ∨ acc.cookieStatus = CookieStatus.invalid := by
  unfold drainAccountStep at hacc
  cases ht : env.traverse id with
  | throws =>
      rw [ht] at hacc
      dsimp only at hacc
      rw [findAcc_setStatus, if_pos rfl] at hacc
      cases hfa : findAcc id s.accounts with
      | none => rw [hfa] at hacc; simp at hacc
      | some a =>
          rw [hfa] at hacc
          simp only [Option.map_some'] at hacc
          injection hacc with h
          exact Or.inr (by rw [← h])
  | ok cs =>
      rw [ht] at hacc
      dsimp only at hacc
      cases hfa : findAcc id s.accounts with
      | none =>
          rw [hfa] at hacc
          dsimp only at hacc
          rw [hfa] at hacc
          simp at hacc
      | some a =>
          rw [hfa] at hacc
          dsimp only at hacc
          by_cases hcs : cs.isEmpty
          · rw [if_pos hcs] at hacc
            dsimp only at hacc
            rw [findAcc_setStatus, if_pos rfl, hfa] at hacc
            simp only [Option.map_some'] at hacc
            injection hacc with h
            exact Or.inr (by rw [← h])
          · rw [if_neg hcs] at hacc
            try dsimp only at hacc
            cases hfe : env.fetch id cs with
            | ok live ended =>
                rw [hfe] at hacc
                dsimp only at hacc
                rw [findAcc_updAcc, if_pos rfl, findAcc_updAcc, if_pos rfl, hfa] at hacc
                simp only [Option.map_some'] at hacc
                injection hacc with h
                exact Or.inl (by rw [← h])
            | nullResult =>
                rw [hfe] at hacc
                dsimp only at hacc
                rw [findAcc_updAcc, if_pos rfl, hfa] at hacc
                simp only [Option.map_some'] at hacc
                injection hacc with h
                exact Or.inl (by rw [← h])
            | throws =>
                rw [hfe] at hacc
                dsimp only at hacc
                rw [findAcc_setStatus, if_pos rfl, findAcc_updAcc, if_pos rfl, hfa] at hacc
                simp only [Option.map_some'] at hacc
                injection hacc with h
                exact Or.inr (by rw [← h])

theorem drainLoop_frame (env : Env) (p : List String) (x : String) (s : AuthState)
    (hx : x ∉ p) :
    findAcc x (drainLoop env p s).1.accounts = findAcc x s.accounts
    ∧ ((x ∈ (drainLoop env p s).1.authQueue) ↔ x ∈ s.authQueue) := by
  induction p generalizing s with
  | nil => simp [drainLoop]
  | cons i rest ih =>
      have hxi : x ≠ i := fun h => hx (h ▸ List.mem_cons_self i rest)
      have hxr : x ∉ rest := fun h => hx (List.mem_cons_of_mem _ h)
      obtain ⟨h1, h2⟩ := drainAccountStep_frame env i x s hxi
      obtain ⟨h3, h4⟩ := ih (drainAccountStep env i s).1 hxr
      constructor
      · show findAcc x (drainLoop env rest (drainAccountStep env i s).1).1.accounts
            = findAcc x s.accounts
        rw [h3, h1]
      · show (x ∈ (drainLoop env rest (drainAccountStep env i s).1).1.authQueue)
            ↔ x ∈ s.authQueue
        exact h4.trans h2

theorem drainLoop_spec (env : Env) (p : List String) (x : String) (s : AuthState)
    (hx : x ∈ p) :
    x ∉ (drainLoop env p s).1.authQueue
    ∧ ∀ acc, findAcc x (drainLoop env p s).1.accounts = some acc →
        acc.cookieStatus = CookieStatus.valid ∨ acc.cookieStatus = CookieStatus.invalid := by
  induction p generalizing s with
  | nil => cases hx
  | cons i rest ih =>
      by_cases hxr : x ∈ rest
      · obtain ⟨h1, h2⟩ := ih (drainAccountStep env i s).1 hxr
        exact ⟨h1, h2⟩
      · have hxi : x = i := by
          rcases List.mem_cons.mp hx with h | h
          · exact h
          · exact absurd h hxr
        subst hxi
        obtain ⟨hf1, hf2⟩ := drainLoop_frame env rest x (drainAccountStep env x s).1 hxr
        constructor
        · show x ∉ (drainLoop env rest (drainAccountStep env x s).1).1.authQueue
          rw [hf2]
          exact drainAccountStep_notmem env x s
        · intro acc hacc
          rw [show (drainLoop env (x :: rest) s).1
              = (drainLoop env rest (drainAccountStep env x s).1).1 from rfl] at hacc
          rw [hf1] at hacc
          exact drainAccountStep_status env x s acc hacc

/-- C3: no stuck `authorizing` / fail closed — whatever the outcome of a
drain started on a queue containing `id` (per-account success or failure,
agent-login timeout, or the outer exception from a malformed stored agent
cookie string), at the end of the big-step run `id` has been removed from the
authorization queue, and if `id` is still registered its status is `valid` or
`invalid`, never `authorizing`. -/
theorem c3_no_stuck_authorizing (env : Env) (s : AuthState) (id : String)
    (hrun : s.isAuthRunning = false) (hq : id ∈ s.authQueue) :
    id ∉ (processAuthQueueRun env s).1.authQueue
    ∧ ∀ acc, findAcc id (processAuthQueueRun env s).1.accounts = some acc →
        acc.cookieStatus = CookieStatus.valid ∨ acc.cookieStatus = CookieStatus.invalid := by
  have hne : s.authQueue.isEmpty = false := by
    cases hqq : s.authQueue with
    | nil => rw [hqq] at hq; cases hq
    | cons y ys => rfl
  have hs0 : (processAuthQueueStart s).drain = DrainLocal.agentPhase s.authQueue := by
    unfold processAuthQueueStart
    rw [if_neg (by simp [hrun, hne])]
  have hs0q : (processAuthQueueStart s).authQueue = s.authQueue := pAQS_queue s
  unfold processAuthQueueRun
  rw [if_neg (by simp [hrun, hne])]
  dsimp only
  cases hok : agentPhaseOk env with
  | true =>
      have hda := drainAgent_ok env (processAuthQueueStart s) s.authQueue hs0 hok
      rw [hda]
      dsimp only
      constructor
      · rw [drainFinish_queue]
        exact (drainLoop_spec env s.authQueue id _ hq).1
      · intro acc hacc
        rw [drainFinish_accounts] at hacc
        exact (drainLoop_spec env s.authQueue id _ hq).2 acc hacc
  | false =>
      have hda := drainAgent_fail env (processAuthQueueStart s) s.authQueue hs0 hok
      have hqnil : (failMark s.authQueue (processAuthQueueStart s)).authQueue = [] := by
        apply failMark_queue_nil
        intro x hx
        rw [hs0q] at hx
        exact hx
      have hfd : failDrain s.authQueue (processAuthQueueStart s)
          = { failMark s.authQueue (processAuthQueueStart s) with
              isAuthRunning := false, authProgress := AuthProgress.idle,
              drain := DrainLocal.idle } := by
        unfold failDrain
        exact pAQS_empty _ hqnil
      rw [hda, hfd]
      dsimp only
      constructor
      · rw [hqnil]
        exact List.not_mem_nil id
      · intro acc hacc
        exact Or.inr (failMark_status s.authQueue id (processAuthQueueStart s) hq acc hacc)

theorem c3_no_stuck_authorizing_witness :
    "a1" ∈ s4.authQueue
    ∧ "a1" ∉ (processAuthQueueRun env0 s4).1.authQueue
    ∧ ∀ acc, findAcc "a1" (processAuthQueueRun env0 s4).1.accounts = some acc →
        acc.cookieStatus = CookieStatus.valid ∨ acc.cookieStatus = CookieStatus.invalid := by
  refine ⟨by decide, ?_, ?_⟩
  · exact (c3_no_stuck_authorizing env0 s4 "a1" rfl (by decide)).1
  · exact (c3_no_stuck_authorizing env0 s4 "a1" rfl (by decide)).2

theorem drainAccountStep_valid (env : Env) (id : String) (s : AuthState)
    (cs : List CookieData) (ht : env.traverse id = TraverseResult.ok cs)
    (hcs : cs.isEmpty = false) (a : AccountData)
    (hreg : findAcc id s.accounts = some a)
    (hf : env.fetch id cs ≠ FetchResult.throws) :
    ∃ acc, findAcc id (drainAccountStep env id s).1.accounts = some acc
      ∧ acc.cookieStatus = CookieStatus.valid := by
  unfold drainAccountStep
  rw [ht]
  dsimp only
  rw [hreg]
  dsimp only
  rw [if_neg (by simp [hcs])]
  cases hfe : env.fetch id cs with
  | ok live ended =>
      dsimp only
      rw [findAcc_updAcc, if_pos rfl, findAcc_updAcc, if_pos rfl, hreg]
      simp only [Option.map_some']
      exact ⟨_, rfl, rfl⟩
  | nullResult =>
      dsimp only
      rw [findAcc_updAcc, if_pos rfl, hreg]
      simp only [Option.map_some']
      exact ⟨_, rfl, rfl⟩
  | throws => exact absurd hfe hf

theorem drainAccountStep_invalid (env : Env) (id : String) (s : AuthState)
    (ht : env.traverse id = TraverseResult.ok [] ∨ env.traverse id = TraverseResult.throws)
    (a : AccountData) (hreg : findAcc id s.accounts = some a) :
    ∃ acc, findAcc id (drainAccountStep env id s).1.accounts = some acc
      ∧ acc.cookieStatus = CookieStatus.invalid := by
  unfold drainAccountStep
  rcases ht with ht | ht
  · rw [ht]
    dsimp only
    rw [hreg]
    dsimp only
    rw [if_pos (show ([] : List CookieData).isEmpty = true from rfl)]
    rw [findAcc_setStatus, if_pos rfl, hreg]
    simp only [Option.map_some']
    exact ⟨_, rfl, rfl⟩
  · rw [ht]
    dsimp only
    rw [findAcc_setStatus, if_pos rfl, hreg]
    simp only [Option.map_some']
    exact ⟨_, rfl, rfl⟩

theorem drainLoop_three (env : Env) (s' : AuthState) (a1 a2 a3 : String)
    (cs1 cs3 : List CookieData) (acc1 acc2 acc3 : AccountData)
    (h12 : a1 ≠ a2) (h13 : a1 ≠ a3) (h23 : a2 ≠ a3)
    (hr1 : findAcc a1 s'.accounts = some acc1)
    (hr2 : findAcc a2 s'.accounts = some acc2)
    (hr3 : findAcc a3 s'.accounts = some acc3)
    (ht1 : env.traverse a1 = TraverseResult.ok cs1) (hcs1 : cs1.isEmpty = false)
    (hf1 : env.fetch a1 cs1 ≠ FetchResult.throws)
    (ht2 : env.traverse a2 = TraverseResult.ok [] ∨ env.traverse a2 = TraverseResult.throws)
    (ht3 : env.traverse a3 = TraverseResult.ok cs3) (hcs3 : cs3.isEmpty = false)
    (hf3 : env.fetch a3 cs3 ≠ FetchResult.throws) :
    (∃ b1, findAcc a1 (drainLoop env [a1, a2, a3] s').1.accounts = some b1
        ∧ b1.cookieStatus = CookieStatus.valid)
    ∧ (∃ b2, findAcc a2 (drainLoop env [a1, a2, a3] s').1.accounts = some b2
        ∧ b2.cookieStatus = CookieStatus.invalid)
    ∧ (∃ b3, findAcc a3 (drainLoop env [a1, a2, a3] s').1.accounts = some b3
        ∧ b3.cookieStatus = CookieStatus.valid) := by
  have e : (drainLoop env [a1, a2, a3] s').1
      = (drainAccountStep env a3
          (drainAccountStep env a2 (drainAccountStep env a1 s').1).1).1 := rfl
  rw [e]
  obtain ⟨b1, hb1, hv1⟩ := drainAccountStep_valid env a1 s' cs1 ht1 hcs1 acc1 hr1 hf1
  have hr2' : findAcc a2 (drainAccountStep env a1 s').1.accounts = some acc2 := by
    rw [(drainAccountStep_frame env a1 a2 s' (Ne.symm h12)).1]
    exact hr2
  obtain ⟨b2, hb2, hv2⟩ := drainAccountStep_invalid env a2
    (drainAccountStep env a1 s').1 ht2 acc2 hr2'
  have hr3' : findAcc a3
      (drainAccountStep env a2 (drainAccountStep env a1 s').1).1.accounts = some acc3 := by
    rw [(drainAccountStep_frame env a2 a3 _ (Ne.symm h23)).1,
        (drainAccountStep_frame env a1 a3 s' (Ne.symm h13)).1]
    exact hr3
  obtain ⟨b3, hb3, hv3⟩ := drainAccountStep_valid env a3
    (drainAccountStep env a2 (drainAccountStep env a1 s').1).1 cs3 ht3 hcs3 acc3 hr3' hf3
  refine ⟨⟨b1, ?_, hv1⟩, ⟨b2, ?_, hv2⟩, ⟨b3, hb3, hv3⟩⟩
  · rw [(drainAccountStep_frame env a3 a1 _ h13).1,
        (drainAccountStep_frame env a2 a1 _ h12).1]
    exact hb1
  · rw [(drainAccountStep_frame env a3 a2 _ h23).1]
    exact hb2

/-- C6: partial-failure isolation — in one drain over a batch of three
distinct registered accounts where impersonation fails (returns empty or
throws) for the second only, and where the only failure in the batch is that
one (the other two impersonations return non-empty cookies and their metrics
fetches do not throw), the first and third accounts end `valid` and the
second ends `invalid`; the failure does not abort the rest of the batch. -/
theorem c6_partial_failure_isolation (env : Env) (s : AuthState)
    (a1 a2 a3 : String) (cs1 cs3 : List CookieData)
    (acc1 acc2 acc3 : AccountData)
    (hrun : s.isAuthRunning = false)
    (hq : s.authQueue = [a1, a2, a3])
    (h12 : a1 ≠ a2) (h13 : a1 ≠ a3) (h23 : a2 ≠ a3)
    (hr1 : findAcc a1 s.accounts = some acc1)
    (hr2 : findAcc a2 s.accounts = some acc2)
    (hr3 : findAcc a3 s.accounts = some acc3)
    (hagent : agentPhaseOk env = true)
    (ht1 : env.traverse a1 = TraverseResult.ok cs1) (hcs1 : cs1.isEmpty = false)
    (hf1 : env.fetch a1 cs1 ≠ FetchResult.throws)
    (ht2 : env.traverse a2 = TraverseResult.ok [] ∨ env.traverse a2 = TraverseResult.throws)
    (ht3 : env.traverse a3 = TraverseResult.ok cs3) (hcs3 : cs3.isEmpty = false)
    (hf3 : env.fetch a3 cs3 ≠ FetchResult.throws) :
    (∃ b1, findAcc a1 (processAuthQueueRun env s).1.accounts = some b1
        ∧ b1.cookieStatus = CookieStatus.valid)
    ∧ (∃ b2, findAcc a2 (processAuthQueueRun env s).1.accounts = some b2
        ∧ b2.cookieStatus = CookieStatus.invalid)
    ∧ (∃ b3, findAcc a3 (processAuthQueueRun env s).1.accounts = some b3
        ∧ b3.cookieStatus = CookieStatus.valid) := by
  have hne : s.authQueue.isEmpty = false := by rw [hq]; rfl
  have hs0 : (processAuthQueueStart s).drain = DrainLocal.agentPhase s.authQueue := by
    unfold processAuthQueueStart
    rw [if_neg (by simp [hrun, hne])]
  unfold processAuthQueueRun
  rw [if_neg (by simp [hrun, hne])]
  dsimp only
  have hda := drainAgent_ok env (processAuthQueueStart s) s.authQueue hs0 hagent
  rw [hda]
  dsimp only
  rw [hq]
  have hr1' : findAcc a1
      ({ processAuthQueueStart s with drain := DrainLocal.looping [] } : AuthState).accounts
      = some acc1 := by
    rw [show ({ processAuthQueueStart s with drain := DrainLocal.looping [] } : AuthState).accounts = (processAuthQueueStart s).accounts from rfl, pAQS_accounts]
    exact hr1
  have hr2' : findAcc a2
      ({ processAuthQueueStart s with drain := DrainLocal.looping [] } : AuthState).accounts
      = some acc2 := by
    rw [show ({ processAuthQueueStart s with drain := DrainLocal.looping [] } : AuthState).accounts = (processAuthQueueStart s).accounts from rfl, pAQS_accounts]
    exact hr2
  have hr3' : findAcc a3
      ({ processAuthQueueStart s with drain := DrainLocal.looping [] } : AuthState).accounts
      = some acc3 := by
    rw [show ({ processAuthQueueStart s with drain := DrainLocal.looping [] } : AuthState).accounts = (processAuthQueueStart s).accounts from rfl, pAQS_accounts]
    exact hr3
  have key := drainLoop_three env
    { processAuthQueueStart s with drain := DrainLocal.looping [] }
    a1 a2 a3 cs1 cs3 acc1 acc2 acc3 h12 h13 h23 hr1' hr2' hr3'
    ht1 hcs1 hf1 ht2 ht3 hcs3 hf3
  refine ⟨?_, ?_, ?_⟩
  · obtain ⟨b1, hb1, hv1⟩ := key.1
    refine ⟨b1, ?_, hv1⟩
    rw [drainFinish_accounts]
    exact hb1
  · obtain ⟨b2, hb2, hv2⟩ := key.2.1
    refine ⟨b2, ?_, hv2⟩
    rw [drainFinish_accounts]
    exact hb2
  · obtain ⟨b3, hb3, hv3⟩ := key.2.2
    refine ⟨b3, ?_, hv3⟩
    rw [drainFinish_accounts]
    exact hb3

theorem c6_partial_failure_isolation_witness :
    (∃ b1, findAcc "x1" (processAuthQueueRun
        { env0 with traverse := fun id => if id = "x2" then TraverseResult.ok [] else TraverseResult.ok [c0] }
        { s4 with accounts := [("x1", acctA), ("x2", acctA), ("x3", acctA)],
                  authQueue := ["x1", "x2", "x3"] }).1.accounts = some b1
      ∧ b1.cookieStatus = CookieStatus.valid)
    ∧ (∃ b2, findAcc "x2" (processAuthQueueRun
        { env0 with traverse := fun id => if id = "x2" then TraverseResult.ok [] else TraverseResult.ok [c0] }
        { s4 with accounts := [("x1", acctA), ("x2", acctA), ("x3", acctA)],
                  authQueue := ["x1", "x2", "x3"] }).1.accounts = some b2
      ∧ b2.cookieStatus = CookieStatus.invalid)
    ∧ (∃ b3, findAcc "x3" (processAuthQueueRun
        { env0 with traverse := fun id => if id = "x2" then TraverseResult.ok [] else TraverseResult.ok [c0] }
        { s4 with accounts := [("x1", acctA), ("x2", acctA), ("x3", acctA)],
                  authQueue := ["x1", "x2", "x3"] }).1.accounts = some b3
      ∧ b3.cookieStatus = CookieStatus.valid) :=
  c6_partial_failure_isolation _ _ "x1" "x2" "x3" [c0] [c0] acctA acctA acctA
    rfl rfl (by decide) (by decide) (by decide)
    (by decide) (by decide) (by decide)
    rfl (by decide) rfl (by decide)
    (Or.inl (by decide)) (by decide) rfl (by decide)


/-- C8 counterexample: with a stored agent record whose status is `'valid'`
and whose cookies validate, a drain still calls `validateAgentCookies` — the
stored status is not consulted, contradicting the claim that a `'valid'`
stored status makes the drain reuse the cookies *without* calling
ValidateAgent. -/
theorem c8_cached_reuse_counterexample :
    (({ env0 with agentCookies := AgentCookiesField.parsed [cAg], agentStatus := "valid", validateAgent := fun _ => true } : Env).agentStatus = "valid")
    ∧ Ev.validateAgentCalled [cAg] ∈
        (processAuthQueueRun { env0 with agentCookies := AgentCookiesField.parsed [cAg], agentStatus := "valid", validateAgent := fun _ => true } s4).2 := by
  constructor
  · rfl
  · decide

/-- C8 amended: step 2 of a drain ignores the stored agent status entirely —
the drain's behaviour is invariant under changing the stored status field;
whenever the stored cookie string parses to a non-empty list, the drain calls
ValidateAgent on it (even when the stored status is `'valid'`), proceeds
headless without interactive login only when that validation succeeds, and
falls back to interactive login when validation fails or when no usable
cookie string is stored. -/
theorem c8_agent_revalidation (env : Env) (s : AuthState) (p : List String)
    (cs : List CookieData) (hd : s.drain = DrainLocal.agentPhase p) :
    (∀ st', drainAgent { env with agentStatus := st' } s = drainAgent env s)
    ∧ (env.agentCookies = AgentCookiesField.parsed cs → cs.isEmpty = false →
        Ev.validateAgentCalled cs ∈ (drainAgent env s).2
        ∧ (env.validateAgent cs = true →
            (drainAgent env s).1 = { s with drain := DrainLocal.looping p }
            ∧ Ev.interactiveLogin ∉ (drainAgent env s).2)
        ∧ (env.validateAgent cs = false →
            Ev.interactiveLogin ∈ (drainAgent env s).2))
    ∧ ((env.agentCookies = AgentCookiesField.absent
        ∨ env.agentCookies = AgentCookiesField.emptyJson) →
        Ev.interactiveLogin ∈ (drainAgent env s).2) := by
  refine ⟨fun st' => rfl, fun hac hcs => ?_, fun hac => ?_⟩
  · unfold drainAgent
    rw [hd, hac]
    dsimp only
    rw [if_neg (by simp [hcs])]
    refine ⟨?_, fun hv => ?_, fun hv => ?_⟩
    · by_cases hv : env.validateAgent cs = true
      · simp [hv]
      · rw [Bool.not_eq_true] at hv
        unfold loginFallback
        simp only [hv, Bool.false_eq_true, if_false]
        split <;> simp
    · simp only [hv, if_true]
      constructor
      · trivial
      · unfold loadAgentCookiesToSession
        rw [hac]
        dsimp only
        rw [if_neg (by simp [hcs])]
        simp
    · unfold loginFallback
      simp only [hv, Bool.false_eq_true, if_false]
      split <;> simp
  · unfold drainAgent
    rw [hd]
    rcases hac with hac | hac <;>
    · rw [hac]
      dsimp only
      unfold loginFallback
      by_cases hl : env.loginOk = true
      · simp [hl]
      · rw [Bool.not_eq_true] at hl
        simp [hl]

theorem c8_agent_revalidation_witness :
    (∀ st', drainAgent { env0 with agentCookies := AgentCookiesField.parsed [cAg], validateAgent := fun _ => true, agentStatus := st' } { sfin with drain := DrainLocal.agentPhase ["a1"] }
      = drainAgent { env0 with agentCookies := AgentCookiesField.parsed [cAg], validateAgent := fun _ => true } { sfin with drain := DrainLocal.agentPhase ["a1"] })
    ∧ Ev.validateAgentCalled [cAg] ∈
        (drainAgent { env0 with agentCookies := AgentCookiesField.parsed [cAg], validateAgent := fun _ => true } { sfin with drain := DrainLocal.agentPhase ["a1"] }).2 := by
  refine ⟨?_, ?_⟩
  · exact (c8_agent_revalidation { env0 with agentCookies := AgentCookiesField.parsed [cAg], validateAgent := fun _ => true } { sfin with drain := DrainLocal.agentPhase ["a1"] } ["a1"] [cAg] rfl).1
  · exact ((c8_agent_revalidation { env0 with agentCookies := AgentCookiesField.parsed [cAg], validateAgent := fun _ => true } { sfin with drain := DrainLocal.agentPhase ["a1"] } ["a1"] [cAg] rfl).2.1 rfl rfl).1

/-- C4 counterexample: three machine steps from the fresh manager
(`addAccount "a1"` with no stored cookies, agent phase via interactive login,
one drain-loop iteration in which impersonation succeeds but the immediate
metrics fetch throws) reach a state in which account `a1` has
`cookieStatus = 'invalid'` and a NON-empty cookie set — the per-account
`catch` in `processAuthQueue` flips the status without clearing the
just-stored cookies, refuting `invalid ⇒ cookies empty`. -/
theorem c4_cookie_coherence_counterexample :
    Reachable { env0 with fetch := fun _ _ => FetchResult.throws }
      (stepA { env0 with fetch := fun _ _ => FetchResult.throws } Act.drainStepAct
        (stepA { env0 with fetch := fun _ _ => FetchResult.throws } Act.drainAgentAct
          (stepA { env0 with fetch := fun _ _ => FetchResult.throws } (Act.add "a1" none) AuthState.init)))
    ∧ (findAcc "a1" (stepA { env0 with fetch := fun _ _ => FetchResult.throws } Act.drainStepAct
        (stepA { env0 with fetch := fun _ _ => FetchResult.throws } Act.drainAgentAct
          (stepA { env0 with fetch := fun _ _ => FetchResult.throws } (Act.add "a1" none) AuthState.init))).accounts).map
        (fun a => (a.cookieStatus, a.cookies)) = some (CookieStatus.invalid, [c0]) := by
  constructor
  · exact Reachable.step _ (Reachable.step _ (Reachable.step _ Reachable.init))
  · decide

theorem getLiveRooms_null_clears (env : Env) (id : String) (s : AuthState)
    (acc : AccountData) (hacc : findAcc id s.accounts = some acc)
    (hst : acc.cookieStatus ≠ CookieStatus.authorizing)
    (hck : acc.cookies.isEmpty = false)
    (hfe : env.fetch id acc.cookies = FetchResult.nullResult) :
    ∀ acc', findAcc id (getLiveRooms env id s).2.1.accounts = some acc' →
      acc'.cookies = [] := by
  intro acc' hacc'
  unfold getLiveRooms at hacc'
  rw [hacc] at hacc'
  dsimp only at hacc'
  rw [if_neg hst] at hacc'
  rw [if_pos (by simp [hck])] at hacc'
  rw [hfe] at hacc'
  dsimp only at hacc'
  unfold enqueueAuth at hacc'
  split at hacc'
  · rw [findAcc_updAcc, if_pos rfl, hacc] at hacc'
    simp only [Option.map_some'] at hacc'
    injection hacc' with h
    rw [← h]
  · rw [pAQS_accounts] at hacc'
    dsimp only at hacc'
    rw [findAcc_setStatus, if_pos rfl, findAcc_updAcc, if_pos rfl, hacc] at hacc'
    simp only [Option.map_some'] at hacc'
    injection hacc' with h
    rw [← h]

theorem refreshTick_null_clears (env : Env) (id : String) (s : AuthState)
    (acc : AccountData) (hacc : findAcc id s.accounts = some acc)
    (hst : acc.cookieStatus ≠ CookieStatus.authorizing)
    (hck : acc.cookies.isEmpty = false)
    (hfe : env.fetch id acc.cookies = FetchResult.nullResult) :
    ∀ acc', findAcc id (refreshAccountTick env id s).1.accounts = some acc' →
      acc'.cookies = [] := by
  intro acc' hacc'
  unfold refreshAccountTick at hacc'
  rw [hacc] at hacc'
  dsimp only at hacc'
  rw [if_neg hst] at hacc'
  rw [if_pos (by simp [hck])] at hacc'
  rw [hfe] at hacc'
  dsimp only at hacc'
  unfold enqueueAuth at hacc'
  split at hacc'
  · rw [findAcc_updAcc, if_pos rfl, hacc] at hacc'
    simp only [Option.map_some'] at hacc'
    injection hacc' with h
    rw [← h]
  · rw [pAQS_accounts] at hacc'
    dsimp only at hacc'
    rw [findAcc_setStatus, if_pos rfl, findAcc_updAcc, if_pos rfl, hacc] at hacc'
    simp only [Option.map_some'] at hacc'
    injection hacc' with h
    rw [← h]

theorem drainAccountStep_fail_cookies (env : Env) (id : String) (s : AuthState)
    (acc : AccountData)
    (ht : env.traverse id = TraverseResult.ok [] ∨ env.traverse id = TraverseResult.throws)
    (hacc : findAcc id s.accounts = some acc) :
    findAcc id (drainAccountStep env id s).1.accounts
      = some { acc with cookieStatus := CookieStatus.invalid } := by
  unfold drainAccountStep
  rcases ht with ht | ht
  · rw [ht]
    dsimp only
    rw [hacc]
    dsimp only
    rw [if_pos (show ([] : List CookieData).isEmpty = true from rfl)]
    rw [findAcc_setStatus, if_pos rfl, hacc]
    rfl
  · rw [ht]
    dsimp only
    rw [findAcc_setStatus, if_pos rfl, hacc]
    rfl

theorem findAcc_isSome_of_mem_keys {x : String} {m : List (String × AccountData)}
    (h : x ∈ m.map Prod.fst) : (findAcc x m).isSome = true := by
  induction m with
  | nil => simp at h
  | cons p rest ih =>
      rw [List.map_cons, List.mem_cons] at h
      rcases h with h1 | h1
      · simp [findAcc, h1.symm]
      · by_cases hpx : p.1 = x
        · simp [findAcc, hpx]
        · simp only [findAcc, hpx, if_false]
          exact ih h1

theorem isSome_findAcc_setStatus (id x : String) (st : CookieStatus)
    (m : List (String × AccountData)) :
    (findAcc x (setStatus id st m)).isSome = (findAcc x m).isSome :=
  isSome_findAcc_updAcc id x _ m

theorem isSome_findAcc_append (x id : String) (a : AccountData)
    (m : List (String × AccountData)) (h : (findAcc x m).isSome = true) :
    (findAcc x (m ++ [(id, a)])).isSome = true := by
  rw [findAcc_append]
  cases hf : findAcc x m with
  | none => rw [hf] at h; simp at h
  | some r => rfl

theorem findAcc_append_self (id : String) (a : AccountData)
    (m : List (String × AccountData)) (h : findAcc id m = none) :
    findAcc id (m ++ [(id, a)]) = some a := by
  rw [findAcc_append, h]
  simp

theorem isSome_findAcc_mapAll (x : String) (f : AccountData → AccountData)
    (m : List (String × AccountData)) :
    (findAcc x (m.map (fun p => (p.1, f p.2)))).isSome = (findAcc x m).isSome := by
  rw [findAcc_mapAll]
  cases findAcc x m <;> rfl

theorem CoupledL_enqueue (q : List String) (m : List (String × AccountData))
    (id : String) (hc : CoupledL q m) :
    CoupledL (q ++ [id]) (setStatus id CookieStatus.authorizing m) := by
  intro x acc hacc
  rw [findAcc_setStatus] at hacc
  by_cases hx : x = id
  · subst hx
    rw [if_pos rfl] at hacc
    cases hfa : findAcc x m with
    | none => rw [hfa] at hacc; simp at hacc
    | some a =>
        rw [hfa] at hacc
        simp only [Option.map_some'] at hacc
        injection hacc with hh
        constructor
        · intro _
          rw [← hh]
        · intro _
          simp
  · rw [if_neg hx] at hacc
    have h2 := hc x acc hacc
    rw [List.mem_append]
    simp only [List.mem_singleton, hx, or_false]
    exact h2

theorem QueueRegL_enqueue (q : List String) (m : List (String × AccountData))
    (id : String) (hr : QueueRegL q m)
    (hreg : (findAcc id m).isSome = true) :
    QueueRegL (q ++ [id]) (setStatus id CookieStatus.authorizing m) := by
  intro x hx
  rw [isSome_findAcc_setStatus]
  rcases List.mem_append.mp hx with hx | hx
  · exact hr x hx
  · rw [List.mem_singleton] at hx
    subst hx
    exact hreg

theorem VNL_setStatus (m : List (String × AccountData)) (id : String)
    (st : CookieStatus) (h : VNL m) (hst : st ≠ CookieStatus.valid) :
    VNL (setStatus id st m) := by
  intro x acc hacc hval
  rw [findAcc_setStatus] at hacc
  by_cases hx : x = id
  · subst hx
    rw [if_pos rfl] at hacc
    cases hfa : findAcc x m with
    | none => rw [hfa] at hacc; simp at hacc
    | some a =>
        rw [hfa] at hacc
        simp only [Option.map_some'] at hacc
        injection hacc with hh
        rw [← hh] at hval
        exact absurd hval hst
  · rw [if_neg hx] at hacc
    exact h x acc hacc hval

theorem Inv3_pAQS (s : AuthState) (h : Inv3 s) : Inv3 (processAuthQueueStart s) := by
  obtain ⟨hc, hr, hv⟩ := h
  refine ⟨?_, ?_, ?_⟩
  · show CoupledL (processAuthQueueStart s).authQueue (processAuthQueueStart s).accounts
    rw [pAQS_queue, pAQS_accounts]
    exact hc
  · show QueueRegL (processAuthQueueStart s).authQueue (processAuthQueueStart s).accounts
    rw [pAQS_queue, pAQS_accounts]
    exact hr
  · show VNL (processAuthQueueStart s).accounts
    rw [pAQS_accounts]
    exact hv

theorem Inv3_enqueueAuth (id : String) (s : AuthState)
    (hreg : (findAcc id s.accounts).isSome = true) (h : Inv3 s) :
    Inv3 (enqueueAuth id s) := by
  obtain ⟨hc, hr, hv⟩ := h
  unfold enqueueAuth
  split
  · exact ⟨hc, hr, hv⟩
  · apply Inv3_pAQS
    refine ⟨?_, ?_, ?_⟩
    · show CoupledL (s.authQueue ++ [id]) (setStatus id CookieStatus.authorizing s.accounts)
      exact CoupledL_enqueue _ _ _ hc
    · show QueueRegL (s.authQueue ++ [id]) (setStatus id CookieStatus.authorizing s.accounts)
      exact QueueRegL_enqueue _ _ _ hr hreg
    · show VNL (setStatus id CookieStatus.authorizing s.accounts)
      exact VNL_setStatus _ _ _ hv (by decide)

theorem Inv3_drainFinish (s : AuthState) (h : Inv3 s) : Inv3 (drainFinish s) := by
  unfold drainFinish
  split
  · apply Inv3_pAQS
    exact h
  · exact h

theorem Inv3_failMark (p : List String) (s : AuthState) (h : Inv3 s) :
    Inv3 (failMark p s) := by
  obtain ⟨hc, hr, hv⟩ := h
  refine ⟨?_, ?_, ?_⟩
  · intro x acc hacc
    rw [failMark_mem_queue]
    by_cases hx : x ∈ p
    · have hst := failMark_status p x s hx acc hacc
      constructor
      · intro hmem
        exact absurd hx hmem.2
      · intro hauth
        rw [hst] at hauth
        cases hauth
    · rw [failMark_findAcc_frame p x s hx] at hacc
      have h2 := hc x acc hacc
      constructor
      · intro hmem
        exact h2.mp hmem.1
      · intro hauth
        exact ⟨h2.mpr hauth, hx⟩
  · intro x hx
    rw [failMark_mem_queue] at hx
    rw [failMark_findAcc_frame p x s hx.2]
    exact hr x hx.1
  · intro x acc hacc hval
    by_cases hx : x ∈ p
    · have hst := failMark_status p x s hx acc hacc
      rw [hst] at hval
      cases hval
    · rw [failMark_findAcc_frame p x s hx] at hacc
      exact hv x acc hacc hval

theorem Inv3_failDrain (p : List String) (s : AuthState) (h : Inv3 s) :
    Inv3 (failDrain p s) := by
  unfold failDrain
  apply Inv3_pAQS
  exact Inv3_failMark p s h

theorem Inv3_drainAgent (env : Env) (s : AuthState) (h : Inv3 s) :
    Inv3 (drainAgent env s).1 := by
  unfold drainAgent loginFallback
  repeat' split
  all_goals first
    | exact h
    | exact Inv3_failDrain _ _ h

theorem drainAccountStep_vn (env : Env) (id : String) (s : AuthState)
    (hv : VNL s.accounts) : VNL (drainAccountStep env id s).1.accounts := by
  intro x acc hacc hval
  by_cases hx : x = id
  · subst hx
    unfold drainAccountStep at hacc
    cases ht : env.traverse x with
    | throws =>
        rw [ht] at hacc
        dsimp only at hacc
        rw [findAcc_setStatus, if_pos rfl] at hacc
        cases hfa : findAcc x s.accounts with
        | none => rw [hfa] at hacc; simp at hacc
        | some a =>
            rw [hfa] at hacc
            simp only [Option.map_some'] at hacc
            injection hacc with hh
            rw [← hh] at hval
            cases hval
    | ok cs =>
        rw [ht] at hacc
        dsimp only at hacc
        cases hfa : findAcc x s.accounts with
        | none =>
            rw [hfa] at hacc
            dsimp only at hacc
            exact hv x acc hacc hval
        | some a =>
            rw [hfa] at hacc
            dsimp only at hacc
            by_cases hcs : cs.isEmpty
            · rw [if_pos hcs] at hacc
              dsimp only at hacc
              rw [findAcc_setStatus, if_pos rfl, hfa] at hacc
              simp only [Option.map_some'] at hacc
              injection hacc with hh
              rw [← hh] at hval
              cases hval
            · rw [if_neg hcs] at hacc
              try dsimp only at hacc
              cases hfe : env.fetch x cs with
              | ok live ended =>
                  rw [hfe] at hacc
                  dsimp only at hacc
                  rw [findAcc_updAcc, if_pos rfl, findAcc_updAcc, if_pos rfl, hfa] at hacc
                  simp only [Option.map_some'] at hacc
                  injection hacc with hh
                  rw [← hh]
                  intro hnil
                  dsimp only at hnil
                  rw [hnil] at hcs
                  exact hcs rfl
              | nullResult =>
                  rw [hfe] at hacc
                  dsimp only at hacc
                  rw [findAcc_updAcc, if_pos rfl, hfa] at hacc
                  simp only [Option.map_some'] at hacc
                  injection hacc with hh
                  rw [← hh]
                  intro hnil
                  dsimp only at hnil
                  rw [hnil] at hcs
                  exact hcs rfl
              | throws =>
                  rw [hfe] at hacc
                  dsimp only at hacc
                  rw [findAcc_setStatus, if_pos rfl, findAcc_updAcc, if_pos rfl, hfa] at hacc
                  simp only [Option.map_some'] at hacc
                  injection hacc with hh
                  rw [← hh] at hval
                  cases hval
  · rw [(drainAccountStep_frame env id x s hx).1] at hacc
    exact hv x acc hacc hval

theorem Inv3_drainStepCore (env : Env) (id : String) (s : AuthState)
    (h : Inv3 s) : Inv3 (drainAccountStep env id s).1 := by
  obtain ⟨hc, hr, hv⟩ := h
  refine ⟨?_, ?_, ?_⟩
  · intro x acc hacc
    by_cases hx : x = id
    · subst hx
      have hnm := drainAccountStep_notmem env x s
      have hst := drainAccountStep_status env x s acc hacc
      constructor
      · intro hmem
        exact absurd hmem hnm
      · intro hauth
        rcases hst with hst | hst <;> rw [hauth] at hst <;> cases hst
    · obtain ⟨hf1, hf2⟩ := drainAccountStep_frame env id x s hx
      rw [hf1] at hacc
      rw [hf2]
      exact hc x acc hacc
  · intro x hx
    by_cases hxid : x = id
    · subst hxid
      exact absurd hx (drainAccountStep_notmem env x s)
    · obtain ⟨hf1, hf2⟩ := drainAccountStep_frame env id x s hxid
      rw [hf2] at hx
      rw [show ((drainAccountStep env id s).1.accounts) = (drainAccountStep env id s).1.accounts from rfl]
      have : (findAcc x (drainAccountStep env id s).1.accounts).isSome
          = (findAcc x s.accounts).isSome := by rw [hf1]
      rw [this]
      exact hr x hx
  · exact drainAccountStep_vn env id s hv

theorem Inv3_drainStep (env : Env) (s : AuthState) (h : Inv3 s) :
    Inv3 (drainStep env s).1 := by
  unfold drainStep
  split
  · exact Inv3_drainStepCore env _ _ h
  · exact h

theorem Inv3_removeAccount (env : Env) (id : String) (s : AuthState)
    (h : Inv3 s) : Inv3 (removeAccount env id s).2 := by
  obtain ⟨hc, hr, hv⟩ := h
  refine ⟨?_, ?_, ?_⟩
  · intro x acc hacc
    by_cases hx : x = id
    · subst hx
      rw [show (removeAccount env x s).2.accounts = s.accounts.filter (fun p => p.1 ≠ x) from rfl, findAcc_filter_self] at hacc
      cases hacc
    · rw [show (removeAccount env id s).2.accounts = s.accounts.filter (fun p => p.1 ≠ id) from rfl, findAcc_filterNe _ hx] at hacc
      rw [show (removeAccount env id s).2.authQueue = queueErase id s.authQueue from rfl, mem_queueErase]
      have h2 := hc x acc hacc
      constructor
      · intro hmem
        exact h2.mp hmem.1
      · intro hauth
        exact ⟨h2.mpr hauth, hx⟩
  · intro x hx
    rw [show (removeAccount env id s).2.authQueue = queueErase id s.authQueue from rfl, mem_queueErase] at hx
    rw [show (removeAccount env id s).2.accounts = s.accounts.filter (fun p => p.1 ≠ id) from rfl, findAcc_filterNe _ hx.2]
    exact hr x hx.1
  · intro x acc hacc hval
    by_cases hx : x = id
    · subst hx
      rw [show (removeAccount env x s).2.accounts = s.accounts.filter (fun p => p.1 ≠ x) from rfl, findAcc_filter_self] at hacc
      cases hacc
    · rw [show (removeAccount env id s).2.accounts = s.accounts.filter (fun p => p.1 ≠ id) from rfl, findAcc_filterNe _ hx] at hacc
      exact hv x acc hacc hval

theorem Inv3_updateNonAuth (s : AuthState) (id : String)
    (f : AccountData → AccountData) (h : Inv3 s)
    (hQ : id ∉ s.authQueue)
    (hst : ∀ a, findAcc id s.accounts = some a →
        (f a).cookieStatus ≠ CookieStatus.authorizing)
    (hvn : ∀ a, findAcc id s.accounts = some a →
        (f a).cookieStatus = CookieStatus.valid → (f a).cookies ≠ []) :
    Inv3 { s with accounts := updAcc id f s.accounts } := by
  obtain ⟨hc, hr, hv⟩ := h
  refine ⟨?_, ?_, ?_⟩
  · intro x acc hacc
    rw [show ({ s with accounts := updAcc id f s.accounts } : AuthState).accounts = updAcc id f s.accounts from rfl, findAcc_updAcc] at hacc
    by_cases hx : x = id
    · rw [if_pos hx] at hacc
      subst hx
      cases hfa : findAcc x s.accounts with
      | none => rw [hfa] at hacc; simp at hacc
      | some a =>
          rw [hfa] at hacc
          simp only [Option.map_some'] at hacc
          injection hacc with hh
          constructor
          · intro hmem
            exact absurd hmem hQ
          · intro hauth
            rw [← hh] at hauth
            exact absurd hauth (hst a hfa)
    · rw [if_neg hx] at hacc
      exact hc x acc hacc
  · intro x hx
    rw [show ({ s with accounts := updAcc id f s.accounts } : AuthState).accounts = updAcc id f s.accounts from rfl, isSome_findAcc_updAcc]
    exact hr x hx
  · intro x acc hacc hval
    rw [show ({ s with accounts := updAcc id f s.accounts } : AuthState).accounts = updAcc id f s.accounts from rfl, findAcc_updAcc] at hacc
    by_cases hx : x = id
    · rw [if_pos hx] at hacc
      subst hx
      cases hfa : findAcc x s.accounts with
      | none => rw [hfa] at hacc; simp at hacc
      | some a =>
          rw [hfa] at hacc
          simp only [Option.map_some'] at hacc
          injection hacc with hh
          rw [← hh] at hval ⊢
          exact hvn a hfa hval
    · rw [if_neg hx] at hacc
      exact hv x acc hacc hval

theorem isSome_findAcc_append_self (id : String) (a : AccountData)
    (m : List (String × AccountData)) (h : findAcc id m = none) :
    (findAcc id (m ++ [(id, a)])).isSome = true := by
  rw [findAcc_append_self id a m h]
  rfl

theorem Inv3_register (s : AuthState) (id : String) (acct : AccountData)
    (h : Inv3 s) (hfa : findAcc id s.accounts = none)
    (hstat : acct.cookieStatus ≠ CookieStatus.authorizing)
    (hvn : acct.cookieStatus = CookieStatus.valid → acct.cookies ≠ []) :
    Inv3 { s with accounts := s.accounts ++ [(id, acct)] } := by
  obtain ⟨hc, hr, hv⟩ := h
  have hqid : id ∉ s.authQueue := by
    intro hm
    have h2 := hr id hm
    rw [hfa] at h2
    simp at h2
  refine ⟨?_, ?_, ?_⟩
  · intro x acc hacc
    rw [show ({ s with accounts := s.accounts ++ [(id, acct)] } : AuthState).accounts = s.accounts ++ [(id, acct)] from rfl, findAcc_append] at hacc
    cases hfx : findAcc x s.accounts with
    | some r =>
        rw [hfx] at hacc
        dsimp only at hacc
        injection hacc with hh
        subst hh
        exact hc x r hfx
    | none =>
        rw [hfx] at hacc
        dsimp only at hacc
        by_cases hix : id = x
        · rw [if_pos hix] at hacc
          injection hacc with hh
          constructor
          · intro hmem
            rw [← hix] at hmem
            exact absurd hmem hqid
          · intro hauth
            rw [← hh] at hauth
            exact absurd hauth hstat
        · rw [if_neg hix] at hacc
          cases hacc
  · intro x hx
    exact isSome_findAcc_append x id acct s.accounts (hr x hx)
  · intro x acc hacc hval
    rw [show ({ s with accounts := s.accounts ++ [(id, acct)] } : AuthState).accounts = s.accounts ++ [(id, acct)] from rfl, findAcc_append] at hacc
    cases hfx : findAcc x s.accounts with
    | some r =>
        rw [hfx] at hacc
        dsimp only at hacc
        injection hacc with hh
        subst hh
        exact hv x r hfx hval
    | none =>
        rw [hfx] at hacc
        dsimp only at hacc
        by_cases hix : id = x
        · rw [if_pos hix] at hacc
          injection hacc with hh
          rw [← hh] at hval ⊢
          exact hvn hval
        · rw [if_neg hix] at hacc
          cases hacc

theorem Inv3_addAccount (env : Env) (id : String) (nm : Option String)
    (s : AuthState) (h : Inv3 s) : Inv3 (addAccount env id nm s).2.1 := by
  unfold addAccount
  cases hfa : findAcc id s.accounts with
  | some a => exact h
  | none =>
      have hqid : id ∉ s.authQueue := by
        intro hm
        have h2 := h.2.1 id hm
        rw [hfa] at h2
        simp at h2
      dsimp only
      cases hsc : env.storedCookies id with
      | none =>
          dsimp only
          rw [if_pos (by decide)]
          exact Inv3_enqueueAuth id _ (isSome_findAcc_append_self id _ s.accounts hfa)
            (Inv3_register s id _ h hfa (by intro hx; cases hx) (by intro hx; cases hx))
      | some cs =>
          dsimp only
          by_cases hcse : cs.isEmpty
          · rw [if_pos hcse]
            dsimp only
            rw [if_pos (by decide)]
            exact Inv3_enqueueAuth id _ (isSome_findAcc_append_self id _ s.accounts hfa)
              (Inv3_register s id _ h hfa (by intro hx; cases hx) (by intro hx; cases hx))
          · rw [if_neg hcse]
            by_cases hvv : env.validateAccount id cs = true
            · rw [if_pos hvv]
              dsimp only
              rw [if_neg (by decide)]
              have hreg1 : Inv3 { s with accounts := s.accounts ++
                  [(id, { advId := id, name := nm, liveRooms := [], endedRooms := [],
                          lastFetchTime := 0, cookies := cs,
                          cookieStatus := CookieStatus.valid })] } :=
                Inv3_register s id _ h hfa (by intro hx; cases hx)
                  (fun _ hnil => hcse (by rw [show cs = ([] : List CookieData) from hnil]; rfl))
              cases hfe : env.fetch id cs with
              | ok live ended =>
                  dsimp only
                  exact Inv3_updateNonAuth _ id _ hreg1 hqid
                    (fun a _ => by intro hx; cases hx)
                    (fun a _ _ hnil => hcse (by rw [show cs = ([] : List CookieData) from hnil]; rfl))
              | nullResult =>
                  dsimp only
                  exact hreg1
              | throws =>
                  dsimp only
                  exact hreg1
            · rw [if_neg hvv]
              dsimp only
              rw [if_pos (by decide)]
              exact Inv3_enqueueAuth id _ (isSome_findAcc_append_self id _ s.accounts hfa)
                (Inv3_register s id _ h hfa (by intro hx; cases hx) (by intro hx; cases hx))

theorem Inv3_getLiveRooms (env : Env) (id : String) (s : AuthState)
    (h : Inv3 s) : Inv3 (getLiveRooms env id s).2.1 := by
  unfold getLiveRooms
  cases hfa : findAcc id s.accounts with
  | none => exact h
  | some acct =>
      dsimp only
      by_cases hst : acct.cookieStatus = CookieStatus.authorizing
      · rw [if_pos hst]
        exact h
      · rw [if_neg hst]
        have hQ : id ∉ s.authQueue := fun hm => hst ((h.1 id acct hfa).mp hm)
        by_cases hck : acct.cookies.isEmpty
        · rw [if_neg (by simp [hck])]
          exact Inv3_enqueueAuth id s (by rw [hfa]; rfl) h
        · rw [if_pos (by simp [hck])]
          cases hfe : env.fetch id acct.cookies with
          | ok live ended =>
              dsimp only
              exact Inv3_updateNonAuth s id _ h hQ
                (fun a _ => by intro hx; cases hx)
                (fun a ha _ => by
                  rw [hfa] at ha
                  injection ha with hh
                  subst hh
                  intro hnil
                  dsimp only at hnil
                  rw [hnil] at hck
                  exact hck rfl)
          | nullResult =>
              dsimp only
              have hinv2 := Inv3_updateNonAuth s id
                (fun a => { a with cookieStatus := CookieStatus.invalid, cookies := [] }) h hQ
                (fun a _ => by intro hx; cases hx)
                (fun a _ => by intro hx; cases hx)
              have hreg2 : (findAcc id (updAcc id (fun a => { a with cookieStatus := CookieStatus.invalid, cookies := [] }) s.accounts)).isSome = true := by
                rw [isSome_findAcc_updAcc, hfa]
                rfl
              exact Inv3_enqueueAuth id _ hreg2 hinv2
          | throws => exact h

theorem Inv3_refreshTick (env : Env) (id : String) (s : AuthState)
    (h : Inv3 s) : Inv3 (refreshAccountTick env id s).1 := by
  unfold refreshAccountTick
  cases hfa : findAcc id s.accounts with
  | none => exact h
  | some acct =>
      dsimp only
      by_cases hst : acct.cookieStatus = CookieStatus.authorizing
      · rw [if_pos hst]
        exact h
      · rw [if_neg hst]
        have hQ : id ∉ s.authQueue := fun hm => hst ((h.1 id acct hfa).mp hm)
        by_cases hck : acct.cookies.isEmpty
        · rw [if_neg (by simp [hck])]
          exact h
        · rw [if_pos (by simp [hck])]
          cases hfe : env.fetch id acct.cookies with
          | ok live ended =>
              dsimp only
              exact Inv3_updateNonAuth s id _ h hQ
                (fun a _ => by intro hx; cases hx)
                (fun a ha _ => by
                  rw [hfa] at ha
                  injection ha with hh
                  subst hh
                  intro hnil
                  dsimp only at hnil
                  rw [hnil] at hck
                  exact hck rfl)
          | nullResult =>
              dsimp only
              have hinv2 := Inv3_updateNonAuth s id
                (fun a => { a with cookieStatus := CookieStatus.invalid, cookies := [] }) h hQ
                (fun a _ => by intro hx; cases hx)
                (fun a _ => by intro hx; cases hx)
              have hreg2 : (findAcc id (updAcc id (fun a => { a with cookieStatus := CookieStatus.invalid, cookies := [] }) s.accounts)).isSome = true := by
                rw [isSome_findAcc_updAcc, hfa]
                rfl
              exact Inv3_enqueueAuth id _ hreg2 hinv2
          | throws => exact h

theorem Inv3_agentReauthorize (s : AuthState) (h : Inv3 s) :
    Inv3 (agentReauthorize s) := by
  obtain ⟨hc, hr, hv⟩ := h
  unfold agentReauthorize
  apply Inv3_pAQS
  refine ⟨?_, ?_, ?_⟩
  · intro x acc hacc
    have hacc2 : (findAcc x s.accounts).map (fun a => { a with cookieStatus := CookieStatus.authorizing }) = some acc :=
      (findAcc_mapAll x (fun a => { a with cookieStatus := CookieStatus.authorizing }) s.accounts).symm.trans hacc
    cases hfx : findAcc x s.accounts with
    | none => rw [hfx] at hacc2; simp at hacc2
    | some a =>
        rw [hfx] at hacc2
        simp only [Option.map_some'] at hacc2
        injection hacc2 with hh
        constructor
        · intro _
          rw [← hh]
        · intro _
          show x ∈ (s.accounts.map Prod.fst).foldl (fun q id => queueAdd id q) s.authQueue
          rw [mem_foldl_queueAdd]
          right
          exact mem_keys_of_findAcc (by rw [hfx]; rfl)
  · intro x hx
    have hx2 : x ∈ (s.accounts.map Prod.fst).foldl (fun q id => queueAdd id q) s.authQueue := hx
    rw [mem_foldl_queueAdd] at hx2
    rcases hx2 with hx2 | hx2
    · exact (isSome_findAcc_mapAll x (fun a => { a with cookieStatus := CookieStatus.authorizing }) s.accounts).trans (hr x hx2)
    · exact (isSome_findAcc_mapAll x (fun a => { a with cookieStatus := CookieStatus.authorizing }) s.accounts).trans (findAcc_isSome_of_mem_keys hx2)
  · intro x acc hacc hval
    have hacc2 : (findAcc x s.accounts).map (fun a => { a with cookieStatus := CookieStatus.authorizing }) = some acc :=
      (findAcc_mapAll x (fun a => { a with cookieStatus := CookieStatus.authorizing }) s.accounts).symm.trans hacc
    cases hfx : findAcc x s.accounts with
    | none => rw [hfx] at hacc2; simp at hacc2
    | some a =>
        rw [hfx] at hacc2
        simp only [Option.map_some'] at hacc2
        injection hacc2 with hh
        rw [← hh] at hval
        cases hval

theorem Inv3_stepA (env : Env) (a : Act) (s : AuthState) (h : Inv3 s) :
    Inv3 (stepA env a s) := by
  cases a with
  | enqueue id =>
      simp only [stepA]
      split
      · next hreg => exact Inv3_enqueueAuth id s hreg h
      · exact h
  | drainAgentAct => exact Inv3_drainAgent env s h
  | drainStepAct => exact Inv3_drainStep env s h
  | drainFinishAct => exact Inv3_drainFinish s h
  | add id nm => exact Inv3_addAccount env id nm s h
  | remove id => exact Inv3_removeAccount env id s h
  | getRooms id => exact Inv3_getLiveRooms env id s h
  | refresh id => exact Inv3_refreshTick env id s h
  | agentReauth => exact Inv3_agentReauthorize s h

theorem Inv3_reachable (env : Env) (s : AuthState) (h : Reachable env s) :
    Inv3 s := by
  induction h with
  | init =>
      refine ⟨?_, ?_, ?_⟩
      · intro x acc hacc
        cases hacc
      · intro x hx
        cases hx
      · intro x acc hacc
        cases hacc
  | step a hs ih => exact Inv3_stepA env a _ ih


theorem failMark_drain (p : List String) (s : AuthState) :
    (failMark p s).drain = s.drain := by
  induction p generalizing s with
  | nil => rfl
  | cons i rest ih => rw [failMark_cons]; exact ih _

theorem failMark_running (p : List String) (s : AuthState) :
    (failMark p s).isAuthRunning = s.isAuthRunning := by
  induction p generalizing s with
  | nil => rfl
  | cons i rest ih => rw [failMark_cons]; exact ih _

theorem drainAccountStep_queue (env : Env) (id : String) (s : AuthState) :
    (drainAccountStep env id s).1.authQueue = queueErase id s.authQueue := by
  unfold drainAccountStep
  repeat' (first | split | dsimp only)

theorem drainAccountStep_drain (env : Env) (id : String) (s : AuthState) :
    (drainAccountStep env id s).1.drain = s.drain := by
  unfold drainAccountStep
  repeat' (first | split | dsimp only)

theorem pAQS_queueRun (s : AuthState) : QueueRun (processAuthQueueStart s) := by
  intro hq
  unfold processAuthQueueStart at hq ⊢
  by_cases hc : (s.isAuthRunning || s.authQueue.isEmpty) = true
  · rw [if_pos hc] at hq ⊢
    rcases Bool.or_eq_true_iff.mp hc with h | h
    · exact h
    · cases hsq : s.authQueue with
      | nil => exact absurd hsq hq
      | cons a l => rw [hsq] at h; simp [List.isEmpty] at h
  · rw [if_neg hc]

theorem AuthzTracked_pAQS (s : AuthState) (h : AuthzTracked s) :
    AuthzTracked (processAuthQueueStart s) := by
  unfold processAuthQueueStart
  by_cases hc : (s.isAuthRunning || s.authQueue.isEmpty) = true
  · rw [if_pos hc]; exact h
  · rw [if_neg hc]
    have hr : s.isAuthRunning = false := by
      cases hb : s.isAuthRunning with
      | false => rfl
      | true => exact absurd (by rw [hb]; rfl) hc
    intro id acc hacc hauth
    rcases h id acc hacc hauth with hq | hrun
    · exact Or.inl hq
    · rw [hr] at hrun
      exact absurd hrun.1 (by simp)

theorem AuthzTracked_enqueueAuth (id : String) (s : AuthState)
    (h : AuthzTracked s) : AuthzTracked (enqueueAuth id s) := by
  unfold enqueueAuth
  by_cases hmem : id ∈ s.authQueue
  · rw [if_pos hmem]; exact h
  · rw [if_neg hmem]
    apply AuthzTracked_pAQS
    intro x acc hacc hauth
    have hacc2 : findAcc x (setStatus id CookieStatus.authorizing s.accounts) = some acc := hacc
    rw [findAcc_setStatus] at hacc2
    by_cases hx : x = id
    · subst hx
      exact Or.inl (List.mem_append.mpr (Or.inr (List.mem_singleton.mpr rfl)))
    · rw [if_neg hx] at hacc2
      rcases h x acc hacc2 hauth with hq | hrun
      · exact Or.inl (List.mem_append.mpr (Or.inl hq))
      · exact Or.inr hrun

theorem InvW_enqueueAuth (id : String) (s : AuthState) (h : InvW s) :
    InvW (enqueueAuth id s) := by
  refine ⟨AuthzTracked_enqueueAuth id s h.1, ?_⟩
  unfold enqueueAuth
  by_cases hmem : id ∈ s.authQueue
  · rw [if_pos hmem]; exact h.2
  · rw [if_neg hmem]; exact pAQS_queueRun _

theorem AuthzTracked_write_nonauth (id : String)
    (s : AuthState) (m : List (String × AccountData))
    (hst : ∀ acc, findAcc id m = some acc →
      acc.cookieStatus ≠ CookieStatus.authorizing)
    (hfr : ∀ x, x ≠ id → findAcc x m = findAcc x s.accounts)
    (h : AuthzTracked s) :
    AuthzTracked { s with accounts := m } := by
  intro x acc hacc hauth
  by_cases hx : x = id
  · subst hx
    exact absurd hauth (hst acc hacc)
  · have hacc2 : findAcc x s.accounts = some acc := (hfr x hx) ▸ hacc
    exact h x acc hacc2 hauth

theorem findAcc_setAcc_self (id : String) (a : AccountData)
    (m : List (String × AccountData)) : findAcc id (setAcc id a m) = some a := by
  unfold setAcc
  split
  · next hs =>
      rw [findAcc_updAcc, if_pos rfl]
      cases hf : findAcc id m with
      | none => rw [hf] at hs; cases hs
      | some r => rfl
  · next hs =>
      rw [findAcc_append]
      cases hf : findAcc id m with
      | some r => rw [hf] at hs; exact absurd rfl hs
      | none => dsimp only; rw [if_pos rfl]

theorem findAcc_setAcc_ne (id x : String) (a : AccountData)
    (m : List (String × AccountData)) (hx : x ≠ id) :
    findAcc x (setAcc id a m) = findAcc x m := by
  unfold setAcc
  split
  · rw [findAcc_updAcc, if_neg hx]
  · rw [findAcc_append]
    cases hf : findAcc x m with
    | some r => rfl
    | none => dsimp only; rw [if_neg (fun hh => hx hh.symm)]

theorem InvW_removeAccount (env : Env) (id : String) (s : AuthState)
    (h : InvW s) : InvW (removeAccount env id s).2 := by
  constructor
  · intro x acc hacc hauth
    have hacc2 : findAcc x (s.accounts.filter (fun p => p.1 ≠ id)) = some acc := hacc
    by_cases hx : x = id
    · subst hx
      rw [findAcc_filter_self] at hacc2
      cases hacc2
    · rw [findAcc_filterNe _ hx] at hacc2
      rcases h.1 x acc hacc2 hauth with hq | hrun
      · exact Or.inl (mem_queueErase.mpr ⟨hq, hx⟩)
      · exact Or.inr hrun
  · intro hq
    apply h.2
    intro hnil
    apply hq
    show queueErase id s.authQueue = []
    rw [hnil]
    rfl

theorem InvW_failDrain (p : List String) (s : AuthState) (h : InvW s)
    (hsub : ∀ x, x ∈ drainPend s.drain → x ∈ p) :
    InvW (failDrain p s) := by
  have hm : ∀ x acc, findAcc x (failMark p s).accounts = some acc →
      acc.cookieStatus = CookieStatus.authorizing →
      x ∈ (failMark p s).authQueue := by
    intro x acc hacc hauth
    by_cases hx : x ∈ p
    · have := failMark_status p x s hx acc hacc
      rw [hauth] at this
      cases this
    · rw [failMark_findAcc_frame p x s hx] at hacc
      rcases h.1 x acc hacc hauth with hq | hrun
      · exact (failMark_mem_queue p x s).mpr ⟨hq, hx⟩
      · exact absurd (hsub x hrun.2) hx
  constructor
  · apply AuthzTracked_pAQS
    intro x acc hacc hauth
    exact Or.inl (hm x acc hacc hauth)
  · exact pAQS_queueRun _

theorem InvW_loginFallback (env : Env) (p : List String) (s : AuthState)
    (ev : List Ev) (h : InvW s) (hd : s.drain = DrainLocal.agentPhase p) :
    InvW (loginFallback env p s ev).1 := by
  unfold loginFallback
  split
  · constructor
    · intro x acc hacc hauth
      rcases h.1 x acc hacc hauth with hq | hrun
      · exact Or.inl hq
      · refine Or.inr ⟨hrun.1, ?_⟩
        have h2 := hrun.2
        rw [hd] at h2
        exact h2
    · intro hq
      exact h.2 hq
  · exact InvW_failDrain p s h (by rw [hd]; intro x hx; exact hx)

theorem InvW_drainAgent (env : Env) (s : AuthState) (h : InvW s) :
    InvW (drainAgent env s).1 := by
  unfold drainAgent
  cases hd : s.drain with
  | idle => exact h
  | looping r => exact h
  | agentPhase p =>
      have hsub : ∀ x, x ∈ drainPend s.drain → x ∈ p := by
        rw [hd]; intro x hx; exact hx
      dsimp only
      cases hac : env.agentCookies with
      | malformed => exact InvW_failDrain p s h hsub
      | absent => exact InvW_loginFallback env p s [] h hd
      | emptyJson => exact InvW_loginFallback env p s [] h hd
      | parsed cs =>
          dsimp only
          split
          · exact InvW_loginFallback env p s [] h hd
          · split
            · constructor
              · intro x acc hacc hauth
                rcases h.1 x acc hacc hauth with hq | hrun
                · exact Or.inl hq
                · refine Or.inr ⟨hrun.1, ?_⟩
                  have h2 := hrun.2
                  rw [hd] at h2
                  exact h2
              · intro hq
                exact h.2 hq
            · exact InvW_loginFallback env p s [Ev.validateAgentCalled cs] h hd

theorem InvW_drainStep (env : Env) (s : AuthState) (h : InvW s) :
    InvW (drainStep env s).1 := by
  unfold drainStep
  cases hd : s.drain with
  | idle => exact h
  | agentPhase p => exact h
  | looping r =>
      cases r with
      | nil => exact h
      | cons id rest =>
          dsimp only
          constructor
          · intro x acc hacc hauth
            by_cases hx : x = id
            · subst hx
              rcases drainAccountStep_status env x _ acc hacc with hv | hv <;>
                (rw [hauth] at hv; cases hv)
            · have hfr := drainAccountStep_frame env id x
                { s with drain := DrainLocal.looping rest } hx
              rw [hfr.1] at hacc
              have hacc2 : findAcc x s.accounts = some acc := hacc
              rcases h.1 x acc hacc2 hauth with hq | hrun
              · exact Or.inl (hfr.2.mpr hq)
              · refine Or.inr ⟨?_, ?_⟩
                · rw [drainAccountStep_running]
                  exact hrun.1
                · rw [drainAccountStep_drain]
                  have h2 := hrun.2
                  rw [hd] at h2
                  have h3 : x ∈ id :: rest := h2
                  rcases List.mem_cons.mp h3 with he | he
                  · exact absurd he hx
                  · exact he
          · intro hq
            rw [drainAccountStep_running]
            apply h.2
            intro hnil
            apply hq
            rw [drainAccountStep_queue]
            show queueErase id s.authQueue = []
            rw [hnil]
            rfl

theorem InvW_drainFinish (s : AuthState) (h : InvW s) :
    InvW (drainFinish s) := by
  unfold drainFinish
  split
  · next heq =>
      constructor
      · apply AuthzTracked_pAQS
        intro x acc hacc hauth
        rcases h.1 x acc hacc hauth with hq | hrun
        · exact Or.inl hq
        · have h2 := hrun.2
          rw [heq] at h2
          have h3 : x ∈ ([] : List String) := h2
          cases h3
      · exact pAQS_queueRun _
  · exact h

theorem InvW_addUnknown (id : String) (nm : Option String) (s : AuthState)
    (h : InvW s) (hreg : findAcc id s.accounts = none) :
    InvW (addUnknown id nm s) := by
  apply InvW_enqueueAuth
  refine ⟨AuthzTracked_write_nonauth id s _ ?_ ?_ h.1, h.2⟩
  · intro acc hacc
    rw [findAcc_append, hreg] at hacc
    dsimp only at hacc
    rw [if_pos rfl] at hacc
    injection hacc with hacc
    rw [← hacc]
    intro hc
    cases hc
  · intro x hx
    rw [findAcc_append]
    cases hf : findAcc x s.accounts with
    | some r => rfl
    | none => dsimp only; rw [if_neg (fun hh => hx hh.symm)]

theorem InvW_avApply (env : Env) (id : String) (nm : Option String)
    (cs : List CookieData) (s : AuthState) (h : InvW s) :
    InvW (avApply env id nm cs s) := by
  unfold avApply
  split
  · have hbase : ∀ m, (∀ acc, findAcc id m = some acc →
        acc.cookieStatus ≠ CookieStatus.authorizing) →
        (∀ x, x ≠ id → findAcc x m = findAcc x s.accounts) →
        InvW { s with accounts := m } := by
      intro m h1 h2
      exact ⟨AuthzTracked_write_nonauth id s m h1 h2 h.1, h.2⟩
    cases hf : env.fetch id cs with
    | ok live ended =>
        dsimp only
        apply hbase
        · intro acc hacc
          rw [findAcc_updAcc, if_pos rfl, findAcc_setAcc_self] at hacc
          injection hacc with hacc
          rw [← hacc]
          intro hc
          cases hc
        · intro x hx
          rw [findAcc_updAcc, if_neg hx, findAcc_setAcc_ne id x _ _ hx]
    | nullResult =>
        dsimp only
        apply hbase
        · intro acc hacc
          rw [findAcc_setAcc_self] at hacc
          injection hacc with hacc
          rw [← hacc]
          intro hc
          cases hc
        · intro x hx
          exact findAcc_setAcc_ne id x _ _ hx
    | throws =>
        dsimp only
        apply hbase
        · intro acc hacc
          rw [findAcc_setAcc_self] at hacc
          injection hacc with hacc
          rw [← hacc]
          intro hc
          cases hc
        · intro x hx
          exact findAcc_setAcc_ne id x _ _ hx
  · apply InvW_enqueueAuth
    refine ⟨AuthzTracked_write_nonauth id s _ ?_ ?_ h.1, h.2⟩
    · intro acc hacc
      rw [findAcc_setAcc_self] at hacc
      injection hacc with hacc
      rw [← hacc]
      intro hc
      cases hc
    · intro x hx
      exact findAcc_setAcc_ne id x _ _ hx

theorem InvW_fetchResolveApply (env : Env) (id : String) (cs : List CookieData)
    (s : AuthState) (h : InvW s) : InvW (fetchResolveApply env id cs s) := by
  unfold fetchResolveApply
  cases hf : env.fetch id cs with
  | ok live ended =>
      dsimp only
      refine ⟨AuthzTracked_write_nonauth id s _ ?_ ?_ h.1, h.2⟩
      · intro acc hacc
        rw [findAcc_updAcc, if_pos rfl] at hacc
        cases hfa : findAcc id s.accounts with
        | none => rw [hfa] at hacc; cases hacc
        | some r =>
            rw [hfa] at hacc
            injection hacc with hacc
            rw [← hacc]
            intro hc
            cases hc
      · intro x hx
        rw [findAcc_updAcc, if_neg hx]
  | nullResult =>
      dsimp only
      apply InvW_enqueueAuth
      refine ⟨AuthzTracked_write_nonauth id s _ ?_ ?_ h.1, h.2⟩
      · intro acc hacc
        rw [findAcc_updAcc, if_pos rfl] at hacc
        cases hfa : findAcc id s.accounts with
        | none => rw [hfa] at hacc; cases hacc
        | some r =>
            rw [hfa] at hacc
            injection hacc with hacc
            rw [← hacc]
            intro hc
            cases hc
      · intro x hx
        rw [findAcc_updAcc, if_neg hx]
  | throws =>
      dsimp only
      exact h

theorem InvW_agentReauthorize (s : AuthState) (_ : InvW s) :
    InvW (agentReauthorize s) := by
  unfold agentReauthorize
  refine ⟨AuthzTracked_pAQS _ ?_, pAQS_queueRun _⟩
  intro x acc hacc hauth
  have hacc2 : (findAcc x s.accounts).map
      (fun a => { a with cookieStatus := CookieStatus.authorizing }) = some acc :=
    (findAcc_mapAll x (fun a =>
      { a with cookieStatus := CookieStatus.authorizing }) s.accounts).symm.trans hacc
  have hreg : (findAcc x s.accounts).isSome = true := by
    cases hf : findAcc x s.accounts with
    | none => rw [hf] at hacc2; cases hacc2
    | some r => rfl
  exact Or.inl ((mem_foldl_queueAdd _ _ x).mpr (Or.inr (mem_keys_of_findAcc hreg)))

theorem InvW_init : InvW AuthState.init := by
  constructor
  · intro id acc hacc hauth
    cases hacc
  · intro hq
    exact absurd rfl hq

theorem InvW_stepI (env : Env) (a : ActI) (t : IState) (h : InvW t.base) :
    InvW (stepI env a t).base := by
  cases a with
  | enqueue id =>
      simp only [stepI]
      split
      · exact InvW_enqueueAuth id t.base h
      · exact h
  | drainAgentAct => exact InvW_drainAgent env t.base h
  | drainStepAct => exact InvW_drainStep env t.base h
  | drainFinishAct => exact InvW_drainFinish t.base h
  | remove id => exact InvW_removeAccount env id t.base h
  | agentReauth => exact InvW_agentReauthorize t.base h
  | addStart id nm =>
      simp only [stepI]
      cases hf : findAcc id t.base.accounts with
      | some r => exact h
      | none =>
          dsimp only
          cases hsc : env.storedCookies id with
          | some cs =>
              dsimp only
              split
              · exact InvW_addUnknown id nm t.base h hf
              · exact h
          | none => exact InvW_addUnknown id nm t.base h hf
  | addResolve k =>
      simp only [stepI]
      cases hg : t.avPend.get? k with
      | some f => exact InvW_avApply env f.1 f.2.1 f.2.2 t.base h
      | none => exact h
  | glStart id =>
      simp only [stepI]
      cases hf : findAcc id t.base.accounts with
      | none => exact h
      | some acct =>
          dsimp only
          split
          · exact h
          · split
            · exact h
            · exact InvW_enqueueAuth id t.base h
  | glResolve k =>
      simp only [stepI]
      cases hg : t.glPend.get? k with
      | some f => exact InvW_fetchResolveApply env f.1 f.2 t.base h
      | none => exact h
  | rtStart id =>
      simp only [stepI]
      split
      · exact h
      · cases hf : findAcc id t.base.accounts with
        | none => exact h
        | some acct =>
            dsimp only
            split
            · exact h
            · split
              · exact h
              · exact h
  | rtResolve k =>
      simp only [stepI]
      cases hg : t.rtPend.get? k with
      | some f => exact InvW_fetchResolveApply env f.1 f.2 t.base h
      | none => exact h

theorem InvW_reachableI (env : Env) (t : IState) (h : ReachableI env t) :
    InvW t.base := by
  induction h with
  | init => exact InvW_init
  | step a ht ih => exact InvW_stepI env a _ ih

theorem drainAccountStep_valid_cookies (env : Env) (id : String) (s : AuthState)
    (cs : List CookieData) (ht : env.traverse id = TraverseResult.ok cs)
    (hcs : cs.isEmpty = false) (a : AccountData)
    (hreg : findAcc id s.accounts = some a)
    (hf : env.fetch id cs ≠ FetchResult.throws) :
    ∃ acc, findAcc id (drainAccountStep env id s).1.accounts = some acc
      ∧ acc.cookieStatus = CookieStatus.valid ∧ acc.cookies = cs := by
  unfold drainAccountStep
  rw [ht]
  dsimp only
  rw [hreg]
  dsimp only
  rw [if_neg (by simp [hcs])]
  cases hfe : env.fetch id cs with
  | ok live ended =>
      dsimp only
      rw [findAcc_updAcc, if_pos rfl, findAcc_updAcc, if_pos rfl, hreg]
      simp only [Option.map_some']
      exact ⟨_, rfl, rfl, rfl⟩
  | nullResult =>
      dsimp only
      rw [findAcc_updAcc, if_pos rfl, hreg]
      simp only [Option.map_some']
      exact ⟨_, rfl, rfl, rfl⟩
  | throws => exact absurd hfe hf

theorem fetchResolveApply_null_clears (env : Env) (id : String)
    (cs : List CookieData) (s : AuthState)
    (hfe : env.fetch id cs = FetchResult.nullResult) :
    ∀ acc', findAcc id (fetchResolveApply env id cs s).accounts = some acc' →
      acc'.cookies = [] := by
  intro acc' hacc'
  unfold fetchResolveApply at hacc'
  rw [hfe] at hacc'
  dsimp only at hacc'
  unfold enqueueAuth at hacc'
  split at hacc'
  · rw [findAcc_updAcc, if_pos rfl] at hacc'
    cases hfa : findAcc id s.accounts with
    | none => rw [hfa] at hacc'; cases hacc'
    | some r =>
        rw [hfa] at hacc'
        simp only [Option.map_some'] at hacc'
        injection hacc' with h
        rw [← h]
  · rw [pAQS_accounts] at hacc'
    dsimp only at hacc'
    rw [findAcc_setStatus, if_pos rfl, findAcc_updAcc, if_pos rfl] at hacc'
    cases hfa : findAcc id s.accounts with
    | none => rw [hfa] at hacc'; cases hacc'
    | some r =>
        rw [hfa] at hacc'
        simp only [Option.map_some'] at hacc'
        injection hacc' with h
        rw [← h]

theorem fetchResolveApply_ok (env : Env) (id : String) (cs : List CookieData)
    (s : AuthState) (live ended : List LiveRoomData)
    (hfe : env.fetch id cs = FetchResult.ok live ended)
    (acc : AccountData) (hacc : findAcc id s.accounts = some acc) :
    findAcc id (fetchResolveApply env id cs s).accounts
      = some { acc with
               liveRooms := live, endedRooms := ended,
               lastFetchTime := env.now, cookieStatus := CookieStatus.valid } := by
  unfold fetchResolveApply
  rw [hfe]
  dsimp only
  rw [findAcc_updAcc, if_pos rfl, hacc]
  rfl

/-- C2 counterexample: after a completed `getLiveRooms` (no suspended call
remains), the id is in the authorization queue while its status is
`invalid`.  Two overlapping fetches on the account both resolved `null`: the
first resolution invalidated, cleared and enqueued (status back to
`authorizing`); the second wrote `invalid` and then hit `enqueueAuth`'s
`authQueue.has(advId)` early-return, so the status was updated while queue
membership was not — the claimed biconditional and "updated together, never
independently" both fail. -/
theorem c2_queue_status_coupling_counterexample :
    ReachableI envC2 tC2
    ∧ tC2.glPend = [] ∧ tC2.rtPend = [] ∧ tC2.avPend = []
    ∧ "a1" ∈ tC2.base.authQueue
    ∧ (findAcc "a1" tC2.base.accounts).map (fun a => a.cookieStatus)
        = some CookieStatus.invalid := by
  refine ⟨?_, by decide, by decide, by decide, by decide, by decide⟩
  exact ReachableI.step _ (ReachableI.step _ (ReachableI.step _ (ReachableI.step _
    (ReachableI.step _ (ReachableI.step _ ReachableI.init)))))

/-- C2 corrected: in the finer machine — `getLiveRooms`, the auto-refresh
iteration and `addAccount` suspended at their `await`s — the original
biconditional fails (see the counterexample), because the fetch resolutions
write `cookieStatus` directly and `enqueueAuth`'s dedup early-return skips
the queue update.  What does hold in every reachable state: every
`authorizing` account is in the queue or in the running drain's pending
batch; a non-empty queue implies a running drain; and hence whenever no
drain is running the coupling biconditional holds for every registered
account (degenerately — the queue is then empty and no account is
`authorizing`). -/
theorem c2_queue_status_coupling_amended (env : Env) (t : IState)
    (h : ReachableI env t) :
    (∀ id acc, findAcc id t.base.accounts = some acc →
        acc.cookieStatus = CookieStatus.authorizing →
        id ∈ t.base.authQueue ∨
          (t.base.isAuthRunning = true ∧ id ∈ drainPend t.base.drain))
    ∧ (t.base.authQueue ≠ [] → t.base.isAuthRunning = true)
    ∧ (t.base.isAuthRunning = false →
        ∀ id acc, findAcc id t.base.accounts = some acc →
          (id ∈ t.base.authQueue ↔ acc.cookieStatus = CookieStatus.authorizing)) := by
  have hi := InvW_reachableI env t h
  refine ⟨hi.1, hi.2, ?_⟩
  intro hrun id acc hacc
  constructor
  · intro hq
    have hne : t.base.authQueue ≠ [] := by
      intro hnil
      rw [hnil] at hq
      cases hq
    rw [hi.2 hne] at hrun
    cases hrun
  · intro hauth
    rcases hi.1 id acc hacc hauth with hq | hr
    · have hne : t.base.authQueue ≠ [] := by
        intro hnil
        rw [hnil] at hq
        cases hq
      rw [hi.2 hne] at hrun
      cases hrun
    · rw [hr.1] at hrun
      cases hrun

theorem c2_queue_status_coupling_amended_witness :
    findAcc "a1" (stepI env0 (ActI.addStart "a1" none) IState.init).base.accounts
      = some { advId := "a1", name := none, liveRooms := [], endedRooms := [],
               lastFetchTime := 0, cookies := [],
               cookieStatus := CookieStatus.authorizing }
    ∧ ({ advId := "a1", name := none, liveRooms := [], endedRooms := [],
         lastFetchTime := 0, cookies := [],
         cookieStatus := CookieStatus.authorizing } : AccountData).cookieStatus
        = CookieStatus.authorizing
    ∧ ("a1" ∈ (stepI env0 (ActI.addStart "a1" none) IState.init).base.authQueue ∨
        ((stepI env0 (ActI.addStart "a1" none) IState.init).base.isAuthRunning = true ∧
          "a1" ∈ drainPend (stepI env0 (ActI.addStart "a1" none) IState.init).base.drain))
    ∧ (stepI env0 (ActI.addStart "a1" none) IState.init).base.authQueue ≠ []
    ∧ (stepI env0 (ActI.addStart "a1" none) IState.init).base.isAuthRunning = true := by
  refine ⟨by decide, by decide, ?_, by decide, ?_⟩
  · exact (c2_queue_status_coupling_amended env0 _
      (ReachableI.step _ ReachableI.init)).1 "a1"
      { advId := "a1", name := none, liveRooms := [], endedRooms := [],
        lastFetchTime := 0, cookies := [],
        cookieStatus := CookieStatus.authorizing } (by decide) (by decide)
  · exact (c2_queue_status_coupling_amended env0 _
      (ReachableI.step _ ReachableI.init)).2.1 (by decide)

/-- C4 corrected: the cookie/status writes are coherent only at some sites.
The drain's per-account success path installs the impersonation's cookie
list together with `valid` (non-empty under the loop's `cookies.length > 0`
guard), and the `null` branch of the fetch continuation shared by
`getLiveRooms` and the auto-refresh iteration clears the cookie list when
marking `invalid`.  But the result branch of that same continuation marks
`valid` without writing cookies, and the drain's failure paths mark
`invalid` without clearing them, so neither implication of the original
claim is an invariant: `invalid` with non-empty cookies is reachable (see
the counterexample), and the overlapping-fetch race `tC4` reaches `valid`
with an empty cookie list (a stale result resolution after the cookies were
cleared and replaced). -/
theorem c4_cookie_status_coherence_amended (env : Env) (s : AuthState)
    (id : String) (acc : AccountData) (cs : List CookieData) :
    (env.traverse id = TraverseResult.ok cs → cs.isEmpty = false →
        findAcc id s.accounts = some acc →
        env.fetch id cs ≠ FetchResult.throws →
        (findAcc id (drainAccountStep env id s).1.accounts).map
            (fun a => (a.cookieStatus, a.cookies)) = some (CookieStatus.valid, cs))
    ∧ (env.fetch id cs = FetchResult.nullResult →
        ∀ acc', findAcc id (fetchResolveApply env id cs s).accounts = some acc' →
          acc'.cookies = [])
    ∧ (∀ live ended, env.fetch id cs = FetchResult.ok live ended →
        findAcc id s.accounts = some acc →
        findAcc id (fetchResolveApply env id cs s).accounts
          = some { acc with
                   liveRooms := live, endedRooms := ended,
                   lastFetchTime := env.now, cookieStatus := CookieStatus.valid })
    ∧ ((env.traverse id = TraverseResult.ok [] ∨ env.traverse id = TraverseResult.throws) →
        findAcc id s.accounts = some acc →
        findAcc id (drainAccountStep env id s).1.accounts
          = some { acc with cookieStatus := CookieStatus.invalid })
    ∧ (ReachableI envC4i tC4
        ∧ (findAcc "a1" tC4.base.accounts).map (fun a => (a.cookieStatus, a.cookies))
            = some (CookieStatus.valid, ([] : List CookieData))) := by
  refine ⟨?_, ?_, ?_, ?_, ?_, ?_⟩
  · intro ht hcs hacc hf
    rcases drainAccountStep_valid_cookies env id s cs ht hcs acc hacc hf with
      ⟨a2, heq, hst, hck⟩
    rw [heq]
    simp only [Option.map_some']
    rw [hst, hck]
  · intro hfe
    exact fetchResolveApply_null_clears env id cs s hfe
  · intro live ended hfe hacc
    exact fetchResolveApply_ok env id cs s live ended hfe acc hacc
  · intro ht hacc
    exact drainAccountStep_fail_cookies env id s acc ht hacc
  · exact ReachableI.step _ (ReachableI.step _ (ReachableI.step _ (ReachableI.step _
      (ReachableI.step _ (ReachableI.step _ (ReachableI.step _ (ReachableI.step _
        (ReachableI.step _ (ReachableI.step _ ReachableI.init)))))))))
  · decide

theorem c4_cookie_status_coherence_amended_witness :
    (findAcc "a1" (drainAccountStep env0 "a1" s4).1.accounts).map
        (fun a => (a.cookieStatus, a.cookies)) = some (CookieStatus.valid, [c0])
    ∧ ({ advId := "a1", name := none, liveRooms := [], endedRooms := [],
         lastFetchTime := 0, cookies := [],
         cookieStatus := CookieStatus.invalid } : AccountData).cookies = []
    ∧ findAcc "a1"
        (fetchResolveApply env0 "a1" [c0] s4).accounts
        = some { acctA with
                 liveRooms := [], endedRooms := [],
                 lastFetchTime := 5, cookieStatus := CookieStatus.valid }
    ∧ findAcc "a1"
        (drainAccountStep { env0 with traverse := fun _ => TraverseResult.ok [] }
          "a1" s4).1.accounts
        = some { acctA with cookieStatus := CookieStatus.invalid } := by
  refine ⟨?_, ?_, ?_, ?_⟩
  · exact (c4_cookie_status_coherence_amended env0 s4 "a1" acctA [c0]).1
      rfl (by decide) (by decide) (by decide)
  · exact (c4_cookie_status_coherence_amended
      { env0 with fetch := fun _ _ => FetchResult.nullResult } s4 "a1" acctA [c0]).2.1
      rfl
      { advId := "a1", name := none, liveRooms := [], endedRooms := [],
        lastFetchTime := 0, cookies := [],
        cookieStatus := CookieStatus.invalid } (by decide)
  · exact (c4_cookie_status_coherence_amended env0 s4 "a1" acctA [c0]).2.2.1
      [] [] rfl (by decide)
  · exact (c4_cookie_status_coherence_amended
      { env0 with traverse := fun _ => TraverseResult.ok [] } s4 "a1" acctA [c0]).2.2.2.1
      (Or.inl rfl) (by decide)
